import Mathlib

/-!
Shallow embedding of `src/installer/_installer-deduplicate.py` (the
content-addressable deduplication and resource-naming engine of the
revit-ballet installer).

The Python script scans year directories under `SOURCE_PATH`, validates
them, builds a database `filename -> [(year, path, hash, size)]` using
MD5 digests, groups occurrences of each filename by digest, assigns each
group a resource name, copies one representative per group into
`OUTPUT_PATH`, and writes `file-mapping.txt` there.

The embedding models the input filesystem explicitly (a list of year
directories, each holding named files with byte contents), passes the
digest function `hashFn` (standing for `calculate_md5`, an MD5 hex
digest of the file bytes) as a parameter, and returns the observable
outcome of `main` as a record: exit code, output-directory state, the
list of contents that were hashed, and the deduplication plan.
-/

/-- Lexicographic strict order on char lists by code point, mirroring
Python string comparison.  Written with structural recursion so that the
kernel can evaluate it. -/
def lexLt : List Char → List Char → Bool
  | [], [] => false
  | [], _ :: _ => true
  | _ :: _, [] => false
  | a :: as, b :: bs =>
    if a < b then true
    else if b < a then false
    else lexLt as bs

/-- Python `s1 < s2` on strings (code-point lexicographic). -/
def strLt (a b : String) : Bool := lexLt a.data b.data

/-- Python `s1 <= s2` on strings. -/
def strLe (a b : String) : Bool := !(strLt b a)

/-- A file inside a version directory: its name and its byte contents. -/
structure SrcFile where
  name : String
  content : List Nat
deriving DecidableEq

/-- A subdirectory of `SOURCE_PATH`: its name and the files it holds,
in directory-traversal (glob) order. -/
structure YearDir where
  name : String
  files : List SrcFile
deriving DecidableEq

/-- One row of `file_database[filename]`: the dict literal built at
lines 197-202 of the source (`year`, `path`, `hash`, `size`).  The
`path` field is represented by the bytes it points at, which is what
every later read of the path observes. -/
structure Entry where
  year : String
  content : List Nat
  hash : String
  size : Nat
deriving DecidableEq

/-- One element of `deduplication_plan` (source lines 250-257). -/
structure PlanItem where
  filename : String
  resource_name : String
  hash : String
  years : List String
  source_content : List Nat
  size : Nat
deriving DecidableEq

/-- The state of the output directory `OUTPUT_PATH`: the copied
resource files (name, bytes) and, once written, the text of
`file-mapping.txt`. -/
structure OutState where
  resources : List (String × List Nat)
  mapping : Option String
deriving DecidableEq

/-- The input filesystem as `main` observes it: whether `SOURCE_PATH`
exists, its subdirectories, and the pre-existing state of
`OUTPUT_PATH` (if any). -/
structure InputFS where
  sourceExists : Bool
  dirs : List YearDir
  prevOutput : Option OutState
deriving DecidableEq

/-- The observable outcome of one run of `main`: the return value, the
final state of the output directory, the file contents that were passed
to `calculate_md5` (in order), and `deduplication_plan`. -/
structure RunResult where
  exit : Nat
  outDir : Option OutState
  hashed : List (List Nat)
  plan : List PlanItem
deriving DecidableEq

/-- `EXPECTED_YEARS` (source line 76). -/
def EXPECTED_YEARS : List String :=
  ["2017", "2018", "2019", "2020", "2021", "2022", "2023", "2024", "2025", "2026"]

/-- `d.name.isdigit() and len(d.name) == 4` (source line 80). -/
def isYearName (s : String) : Bool :=
  s.data.length == 4 && s.data.all (·.isDigit)

/-- Stable sort of a list by a string key, mirroring Python `sorted`
(Timsort is stable; `List.insertionSort` with a total preorder is
stable in the same way). -/
def sortKey (key : α → String) (l : List α) : List α :=
  List.insertionSort (fun a b => strLe (key a) (key b) = true) l

/-- `year_dirs` (source lines 79-80): the 4-digit-named subdirectories,
sorted by name. -/
def yearDirs (dirs : List YearDir) : List YearDir :=
  sortKey (·.name) (dirs.filter (fun d => isYearName d.name))

/-- `sorted(set(EXPECTED_YEARS) - found_years)` (source line 107):
`EXPECTED_YEARS` is already ascending, so the sorted difference is a
filter of it. -/
def missingYearDirs (yds : List YearDir) : List String :=
  EXPECTED_YEARS.filter (fun y => !(yds.any (fun d => d.name == y)))

/-- `year_dir.glob("*.dll")` (source lines 140, 187): the files of the
directory whose name ends in `.dll`, in traversal order. -/
def dllFiles (d : YearDir) : List SrcFile :=
  d.files.filter (fun fl => ['.', 'd', 'l', 'l'].isSuffixOf fl.name.data)

/-- The validation loop of source lines 138-145: every year directory
must contain at least one `.dll` and one of them must be
`revit-ballet.dll`; otherwise `main` returns 1 (lines 147-176). -/
def validateDlls (yds : List YearDir) : Bool :=
  yds.all (fun d =>
    !(dllFiles d).isEmpty && (dllFiles d).any (fun fl => fl.name == "revit-ballet.dll"))

/-- The row appended to `file_database[filename]` for one scanned file
(source lines 191-202): `size` from `stat`, `hash` from
`calculate_md5`. -/
def mkEntry (hashFn : List Nat → String) (year : String) (fl : SrcFile) : Entry :=
  { year := year, content := fl.content, hash := hashFn fl.content, size := fl.content.length }

/-- `file_database[f]` (source lines 183-202): for each year directory
in sorted order, the rows contributed by its `.dll` files named `f`,
in traversal order. -/
def fileDatabase (hashFn : List Nat → String) (yds : List YearDir) (f : String) : List Entry :=
  yds.flatMap (fun d => ((dllFiles d).filter (fun fl => fl.name == f)).map (mkEntry hashFn d.name))

/-- The filename of every scanned `.dll`, in scan order. -/
def scanNames (yds : List YearDir) : List String :=
  yds.flatMap (fun d => (dllFiles d).map (·.name))

/-- Python dict-insertion deduplication: keep the first occurrence of
each element, preserving order. -/
def dedupAppend [DecidableEq α] (acc : List α) (x : α) : List α :=
  if x ∈ acc then acc else acc ++ [x]

/-- The key sequence of a Python dict fed by repeated insertion: first
occurrences, in order. -/
def firstDedup [DecidableEq α] (l : List α) : List α :=
  l.foldl dedupAppend []

/-- `sorted(file_database.keys())` (source line 215). -/
def dbKeys (yds : List YearDir) : List String :=
  sortKey id (firstDedup (scanNames yds))

/-- The `hash_groups` dict of source lines 219-221 for one filename:
keys in first-occurrence order, each with its rows in order. -/
def groupByHash (entries : List Entry) : List (String × List Entry) :=
  (firstDedup (entries.map (·.hash))).map (fun h => (h, entries.filter (fun e => e.hash == h)))

/-- The resource-name policy of source lines 231-246: `_common.` prefix
when the group spans every year directory, otherwise `_<years[0]>.`. -/
def resourceName (nYearDirs : Nat) (filename : String) (years : List String) : String :=
  if years.length = nYearDirs then
    "_common." ++ filename
  else if years.length = 1 then
    "_" ++ years.headD "" ++ "." ++ filename
  else
    "_" ++ years.headD "" ++ "." ++ filename

/-- The plan item appended at source lines 250-257 for one hash group
(`years` at line 224, `sample_entry = group_entries[0]` at line 225). -/
def mkPlanItem (nYearDirs : Nat) (filename : String) (g : String × List Entry) : PlanItem :=
  { filename := filename
    resource_name := resourceName nYearDirs filename (g.2.map (·.year))
    hash := g.1
    years := g.2.map (·.year)
    source_content := (g.2.headD { year := "", content := [], hash := "", size := 0 }).content
    size := (g.2.headD { year := "", content := [], hash := "", size := 0 }).size }

/-- `deduplication_plan` (source lines 209-257): filenames in sorted
order, hash groups in first-occurrence order. -/
def deduplicationPlan (hashFn : List Nat → String) (yds : List YearDir) : List PlanItem :=
  (dbKeys yds).flatMap (fun f =>
    (groupByHash (fileDatabase hashFn yds f)).map (mkPlanItem yds.length f))

/-- Writing one file into a directory: overwrite the entry with the
same name if present, else add it (the semantics of `shutil.copy` to a
destination path, source line 276). -/
def insertReplace : List (String × List Nat) → String → List Nat → List (String × List Nat)
  | [], n, c => [(n, c)]
  | (m, d) :: rest, n, c =>
    if m = n then (m, c) :: rest else (m, d) :: insertReplace rest n c

/-- The copy loop of source lines 273-276 applied to an empty output
directory. -/
def applyCopies (plan : List PlanItem) : List (String × List Nat) :=
  plan.foldl (fun st e => insertReplace st e.resource_name e.source_content) []

/-- Reading a file from the modelled directory. -/
def lookupStore (st : List (String × List Nat)) (n : String) : Option (List Nat) :=
  (st.find? (fun p => p.1 == n)).map (·.2)

/-- One row of `file-mapping.txt` (source line 288):
`f"{resource_name}|{filename}|{','.join(years)}"`. -/
def mappingLine (e : PlanItem) : String :=
  e.resource_name ++ "|" ++ e.filename ++ "|" ++ String.intercalate "," e.years

/-- The full text of `file-mapping.txt` (source lines 280-288): four
header lines, then one row per plan item sorted by resource name. -/
def mappingContent (plan : List PlanItem) : String :=
  "# Revit Ballet Installer - File Mapping\n" ++
  "# Format: ResourceName|TargetFileName|Years (comma-separated)\n" ++
  "# This file is used by the installer to know which files to extract for each year\n" ++
  "\n" ++
  String.join ((sortKey (·.resource_name) plan).map (fun e => mappingLine e ++ "\n"))

/-- The file contents hashed during the scan of source lines 185-202,
in scan order. -/
def hashedContents (yds : List YearDir) : List (List Nat) :=
  yds.flatMap (fun d => (dllFiles d).map (·.content))

/-- `main` (source lines 44-298), as a function of the observed input
filesystem, parametrized by the digest function.  Mirrors the control
flow: missing source path returns 1 untouched; the output directory is
cleaned (lines 70-73) before the year-directory checks (lines 79-176);
each failed check returns 1; otherwise the scan, planning, copying and
mapping-file write all happen and 0 is returned. -/
def mainRun (hashFn : List Nat → String) (inp : InputFS) : RunResult :=
  if !inp.sourceExists then
    { exit := 1, outDir := inp.prevOutput, hashed := [], plan := [] }
  else
    let yds := yearDirs inp.dirs
    if yds.isEmpty then
      { exit := 1, outDir := some { resources := [], mapping := none }, hashed := [], plan := [] }
    else if !(missingYearDirs yds).isEmpty then
      { exit := 1, outDir := some { resources := [], mapping := none }, hashed := [], plan := [] }
    else if !validateDlls yds then
      { exit := 1, outDir := some { resources := [], mapping := none }, hashed := [], plan := [] }
    else
      let plan := deduplicationPlan hashFn yds
      { exit := 0
        outDir := some { resources := applyCopies plan, mapping := some (mappingContent plan) }
        hashed := hashedContents yds
        plan := plan }

/-- Well-formedness of an input filesystem, guaranteed by any real
directory tree: sibling directories have distinct names and the files
inside one directory have distinct names. -/
def WfInput (inp : InputFS) : Prop :=
  (inp.dirs.map (·.name)).Nodup ∧ ∀ d ∈ inp.dirs, (d.files.map (·.name)).Nodup

instance (inp : InputFS) : Decidable (WfInput inp) := by
  unfold WfInput; infer_instance

/-- The number of physical files in the output directory after a run: the
copied resources plus the mapping file when it has been written. -/
def outFileCount (st : OutState) : Nat :=
  st.resources.length + (match st.mapping with | some _ => 1 | none => 0)

/-- The (filename, digest) pair of every scanned `.dll`, in scan order. -/
def scanPairs (hashFn : List Nat → String) (yds : List YearDir) : List (String × String) :=
  yds.flatMap (fun d => (dllFiles d).map (fun fl => (fl.name, hashFn fl.content)))

/-- The number of distinct (filename, digest) pairs across all version
directories. -/
def distinctPairCount (hashFn : List Nat → String) (yds : List YearDir) : Nat :=
  (firstDedup (scanPairs hashFn yds)).length

/-- Two directory lists holding byte-identical version directories, with
`iterdir` and `glob` possibly returning entries in different orders: the
multiset of directory names is the same, and directories of equal name hold
the same files (as multisets of (name, bytes) pairs). -/
def DirsEquiv (dirs1 dirs2 : List YearDir) : Prop :=
  (dirs1.map (·.name)).Perm (dirs2.map (·.name))
  ∧ ∀ d1 ∈ dirs1, ∀ d2 ∈ dirs2, d1.name = d2.name → d1.files.Perm d2.files

/-- A concrete stand-in for the MD5 hex digest in witnesses: one character
per byte value.  Injective on lists of small bytes. -/
def demoHash (l : List Nat) : String :=
  String.mk (l.map (fun n => Char.ofNat (48 + n)))

/-- A degenerate digest with collisions: every content hashes alike.  Used
to exhibit behaviour on a (logically possible) MD5 collision. -/
def collHash : List Nat → String := fun _ => "d41d8cd9"

/-- A complete, valid input: all ten expected years, each holding exactly
`revit-ballet.dll` with bytes `[9]`. -/
def witnessDirs : List YearDir :=
  EXPECTED_YEARS.map (fun y => { name := y, files := [{ name := "revit-ballet.dll", content := [9] }] })

def witnessInput : InputFS :=
  { sourceExists := true, dirs := witnessDirs, prevOutput := none }

/-- The one plan item the run over `witnessInput` produces. -/
def witnessItem : PlanItem :=
  { filename := "revit-ballet.dll", resource_name := "_common.revit-ballet.dll"
    hash := demoHash [9], years := EXPECTED_YEARS, source_content := [9], size := 1 }

/-- A degenerate database input for the missing defensive-uniqueness check:
the 2017 directory lists two files both named `a.dll` with different bytes,
so two equivalence classes receive the resource name `_2017.a.dll`. -/
def dirsC5 : List YearDir :=
  { name := "2017",
    files := [{ name := "revit-ballet.dll", content := [9] },
              { name := "a.dll", content := [1] }, { name := "a.dll", content := [2] }] }
    :: (EXPECTED_YEARS.drop 1).map
        (fun y => { name := y, files := [{ name := "revit-ballet.dll", content := [9] }] })

def inpC5 : InputFS := { sourceExists := true, dirs := dirsC5, prevOutput := none }

/-- An input on which the digest collides across different sizes:
`revit-ballet.dll` has 1 byte in 2017 and 2 bytes elsewhere, and `collHash`
gives all contents the same digest. -/
def dirsC6 : List YearDir :=
  { name := "2017", files := [{ name := "revit-ballet.dll", content := [0] }] }
    :: (EXPECTED_YEARS.drop 1).map
        (fun y => { name := y, files := [{ name := "revit-ballet.dll", content := [0, 0] }] })

def inpC6 : InputFS := { sourceExists := true, dirs := dirsC6, prevOutput := none }

/-- Scenario 1's input: exactly two versions 2020 and 2021, each holding one
file `a.dll` with identical bytes. -/
def dirs2v : List YearDir :=
  [{ name := "2020", files := [{ name := "a.dll", content := [1, 2] }] },
   { name := "2021", files := [{ name := "a.dll", content := [1, 2] }] }]

def inp2v : InputFS := { sourceExists := true, dirs := dirs2v, prevOutput := none }

/-- An input failing validation (no year directories at all) with a
pre-existing output directory from an earlier successful run. -/
def inpC10 : InputFS :=
  { sourceExists := true, dirs := []
    prevOutput := some { resources := [("_common.a.dll", [1])], mapping := some "old" } }

/-- Two byte-identical ten-year inputs whose directory lists and file lists
are enumerated in different orders. -/
def dirs7a : List YearDir :=
  EXPECTED_YEARS.map (fun y =>
    { name := y, files := [{ name := "revit-ballet.dll", content := [9] },
                           { name := "a.dll", content := [1] }] })

def dirs7b : List YearDir :=
  EXPECTED_YEARS.reverse.map (fun y =>
    { name := y, files := [{ name := "a.dll", content := [1] },
                           { name := "revit-ballet.dll", content := [9] }] })

def inp7a : InputFS := { sourceExists := true, dirs := dirs7a, prevOutput := none }

def inp7b : InputFS := { sourceExists := true, dirs := dirs7b, prevOutput := none }

/-! ## Order lemmas for the embedded string comparison -/

theorem lexLt_irrefl (l : List Char) : lexLt l l = false := by
  induction l with
  | nil => rfl
  | cons a as ih => simp [lexLt, lt_irrefl, ih]

theorem lexLt_trans {a b c : List Char} (h1 : lexLt a b = true) (h2 : lexLt b c = true) :
    lexLt a c = true := by
  induction a generalizing b c with
  | nil =>
    cases b with
    | nil => simp [lexLt] at h1
    | cons x xs =>
      cases c with
      | nil => simp [lexLt] at h2
      | cons y ys => simp [lexLt]
  | cons a as ih =>
    cases b with
    | nil => simp [lexLt] at h1
    | cons x xs =>
      cases c with
      | nil => simp [lexLt] at h2
      | cons y ys =>
        simp only [lexLt] at h1 h2 ⊢
        by_cases hax : a < x
        · by_cases hxy : x < y
          · simp [lt_trans hax hxy]
          · by_cases hyx : y < x
            · simp [hxy, hyx] at h2
            · have hxey : x = y := le_antisymm (not_lt.mp hyx) (not_lt.mp hxy)
              subst hxey
              simp [hax]
        · by_cases hxa : x < a
          · simp [hax, hxa] at h1
          · have haex : a = x := le_antisymm (not_lt.mp hxa) (not_lt.mp hax)
            subst haex
            simp only [lt_irrefl, if_false] at h1
            by_cases hay : a < y
            · simp [hay]
            · by_cases hya : y < a
              · simp [hay, hya] at h2
              · rw [if_neg hay, if_neg hya] at h2 ⊢
                exact ih h1 h2

theorem lexLt_eq_of_not {a b : List Char} (h1 : lexLt a b = false) (h2 : lexLt b a = false) :
    a = b := by
  induction a generalizing b with
  | nil =>
    cases b with
    | nil => rfl
    | cons x xs => simp [lexLt] at h1
  | cons a as ih =>
    cases b with
    | nil => simp [lexLt] at h2
    | cons x xs =>
      simp only [lexLt] at h1 h2
      by_cases hax : a < x
      · simp [hax] at h1
      · by_cases hxa : x < a
        · simp [hax, hxa] at h1
          simp [hxa] at h2
        · have haex : a = x := le_antisymm (not_lt.mp hxa) (not_lt.mp hax)
          subst haex
          simp only [lt_irrefl, if_false] at h1 h2
          rw [ih h1 h2]

theorem strLt_irrefl (s : String) : strLt s s = false := lexLt_irrefl s.data

theorem strLt_trans {a b c : String} (h1 : strLt a b = true) (h2 : strLt b c = true) :
    strLt a c = true := lexLt_trans h1 h2

theorem strLt_connex {a b : String} (h1 : strLt a b = false) (h2 : strLt b a = false) :
    a = b := String.ext (lexLt_eq_of_not h1 h2)

theorem strLt_asymm {a b : String} (h : strLt a b = true) : strLt b a = false := by
  cases hba : strLt b a with
  | false => rfl
  | true => exact absurd (strLt_trans h hba) (by simp [strLt_irrefl])

theorem strLe_refl (a : String) : strLe a a = true := by
  simp [strLe, strLt_irrefl]

theorem strLe_of_strLt {a b : String} (h : strLt a b = true) : strLe a b = true := by
  simp [strLe, strLt_asymm h]

theorem strLe_total (a b : String) : strLe a b = true ∨ strLe b a = true := by
  cases hba : strLt b a with
  | false => exact Or.inl (by simp [strLe, hba])
  | true => exact Or.inr (by simp [strLe, strLt_asymm hba])

theorem strLe_trans {a b c : String} (h1 : strLe a b = true) (h2 : strLe b c = true) :
    strLe a c = true := by
  simp only [strLe, Bool.not_eq_true'] at h1 h2 ⊢
  cases hca : strLt c a with
  | false => rfl
  | true =>
    cases hab : strLt a b with
    | true => exact absurd (strLt_trans hca hab) (by simp [h2])
    | false =>
      cases hba : strLt b a with
      | true => exact absurd hba (by simp [h1])
      | false =>
        have : a = b := strLt_connex hab hba
        subst this
        exact absurd hca (by simp [h2])

theorem strLt_of_strLe_of_ne {a b : String} (h1 : strLe a b = true) (h2 : a ≠ b) :
    strLt a b = true := by
  cases hab : strLt a b with
  | true => rfl
  | false =>
    simp only [strLe, Bool.not_eq_true'] at h1
    exact absurd (strLt_connex hab h1) h2

/-! ## Sorting lemmas -/

theorem sortKey_perm (key : α → String) (l : List α) : (sortKey key l).Perm l :=
  List.perm_insertionSort _ l

theorem sortKey_sorted (key : α → String) (l : List α) :
    (sortKey key l).Pairwise (fun a b => strLe (key a) (key b) = true) := by
  have tot : IsTotal α (fun a b => strLe (key a) (key b) = true) :=
    ⟨fun a b => strLe_total (key a) (key b)⟩
  have tr : IsTrans α (fun a b => strLe (key a) (key b) = true) :=
    ⟨fun _ _ _ h1 h2 => strLe_trans h1 h2⟩
  exact @List.sorted_insertionSort α _ _ tot tr l

theorem sortKey_strict (key : α → String) (l : List α) (h : (l.map key).Nodup) :
    (sortKey key l).Pairwise (fun a b => strLt (key a) (key b) = true) := by
  have hperm : ((sortKey key l).map key).Perm (l.map key) := (sortKey_perm key l).map key
  have hnd : ((sortKey key l).map key).Nodup := hperm.nodup_iff.mpr h
  have hpw : (sortKey key l).Pairwise (fun a b => key a ≠ key b) :=
    List.pairwise_map.mp hnd
  have := (sortKey_sorted key l).and hpw
  exact this.imp (fun h12 => strLt_of_strLe_of_ne h12.1 h12.2)

theorem sortKey_eq_of_perm (key : α → String) {l1 l2 : List α}
    (hp : l1.Perm l2) (hnd : (l1.map key).Nodup) : sortKey key l1 = sortKey key l2 := by
  haveI : IsAntisymm α (fun a b => strLt (key a) (key b) = true) :=
    ⟨fun a b hab hba => absurd hba (by simp [strLt_asymm hab])⟩
  have hnd2 : (l2.map key).Nodup := (hp.map key).nodup_iff.mp hnd
  exact List.eq_of_perm_of_sorted
    (((sortKey_perm key l1).trans hp).trans (sortKey_perm key l2).symm)
    (sortKey_strict key l1 hnd) (sortKey_strict key l2 hnd2)

theorem pairwise_strLt_head_le {l : List String} (h : l.Pairwise (fun a b => strLt a b = true))
    {y : String} (hy : y ∈ l) : strLe (l.headD "") y = true := by
  cases l with
  | nil => cases hy
  | cons a as =>
    rcases List.mem_cons.mp hy with rfl | hmem
    · exact strLe_refl y
    · exact strLe_of_strLt ((List.pairwise_cons.mp h).1 y hmem)

/-! ## Dict-insertion deduplication lemmas -/

theorem mem_foldl_dedupAppend [DecidableEq α] (l acc : List α) (x : α) :
    x ∈ l.foldl dedupAppend acc ↔ x ∈ acc ∨ x ∈ l := by
  induction l generalizing acc with
  | nil => simp
  | cons a as ih =>
    rw [List.foldl_cons, ih]
    unfold dedupAppend
    by_cases h : a ∈ acc
    · rw [if_pos h]
      constructor
      · rintro (hx | hx)
        · exact Or.inl hx
        · exact Or.inr (List.mem_cons_of_mem a hx)
      · rintro (hx | hx)
        · exact Or.inl hx
        · rcases List.mem_cons.mp hx with rfl | hx2
          · exact Or.inl h
          · exact Or.inr hx2
    · rw [if_neg h]
      simp only [List.mem_append, List.mem_singleton, List.mem_cons]
      tauto

theorem mem_firstDedup [DecidableEq α] (l : List α) (x : α) :
    x ∈ firstDedup l ↔ x ∈ l := by
  unfold firstDedup
  rw [mem_foldl_dedupAppend]
  simp

theorem nodup_foldl_dedupAppend [DecidableEq α] (l : List α) (acc : List α)
    (h : acc.Nodup) : (l.foldl dedupAppend acc).Nodup := by
  induction l generalizing acc with
  | nil => exact h
  | cons a as ih =>
    rw [List.foldl_cons]
    apply ih
    unfold dedupAppend
    by_cases hm : a ∈ acc
    · rwa [if_pos hm]
    · rw [if_neg hm]
      rw [List.nodup_append]
      refine ⟨h, List.nodup_singleton a, ?_⟩
      intro x hx hxa
      rw [List.mem_singleton] at hxa
      exact hm (hxa ▸ hx)

theorem nodup_firstDedup [DecidableEq α] (l : List α) : (firstDedup l).Nodup :=
  nodup_foldl_dedupAppend l [] List.nodup_nil

theorem firstDedup_perm_of_perm [DecidableEq α] {l1 l2 : List α} (hp : l1.Perm l2) :
    (firstDedup l1).Perm (firstDedup l2) := by
  apply List.Subperm.antisymm
  · apply List.subperm_of_subset (nodup_firstDedup l1)
    intro x hx
    rw [mem_firstDedup] at hx ⊢
    exact hp.mem_iff.mp hx
  · apply List.subperm_of_subset (nodup_firstDedup l2)
    intro x hx
    rw [mem_firstDedup] at hx ⊢
    exact hp.mem_iff.mpr hx

/-! ## Output-directory lemmas -/

theorem insertReplace_of_not_mem (st : List (String × List Nat)) (n : String) (c : List Nat)
    (h : ∀ p ∈ st, p.1 ≠ n) : insertReplace st n c = st ++ [(n, c)] := by
  induction st with
  | nil => rfl
  | cons p rest ih =>
    unfold insertReplace
    rw [if_neg (h p (List.mem_cons_self p rest))]
    rw [ih (fun q hq => h q (List.mem_cons_of_mem p hq))]
    simp

theorem foldl_insertReplace_eq (plan : List PlanItem) (acc : List (String × List Nat))
    (hdis : ∀ e ∈ plan, ∀ p ∈ acc, p.1 ≠ e.resource_name)
    (hnd : (plan.map (·.resource_name)).Nodup) :
    plan.foldl (fun st e => insertReplace st e.resource_name e.source_content) acc
      = acc ++ plan.map (fun e => (e.resource_name, e.source_content)) := by
  induction plan generalizing acc with
  | nil => simp
  | cons e es ih =>
    rw [List.foldl_cons,
      insertReplace_of_not_mem acc e.resource_name e.source_content
        (fun p hp => hdis e (List.mem_cons_self e es) p hp)]
    rw [List.map_cons] at hnd
    have hnd2 := List.nodup_cons.mp hnd
    rw [ih (acc ++ [(e.resource_name, e.source_content)]) ?_ hnd2.2]
    · simp
    · intro e2 he2 p hp
      rcases List.mem_append.mp hp with hp1 | hp2
      · exact hdis e2 (List.mem_cons_of_mem e he2) p hp1
      · rw [List.mem_singleton] at hp2
        subst hp2
        intro hcontra
        have hc2 : e.resource_name = e2.resource_name := hcontra
        exact hnd2.1 (by rw [hc2]; exact List.mem_map_of_mem (·.resource_name) he2)

theorem applyCopies_eq_map (plan : List PlanItem)
    (hnd : (plan.map (·.resource_name)).Nodup) :
    applyCopies plan = plan.map (fun e => (e.resource_name, e.source_content)) := by
  unfold applyCopies
  rw [foldl_insertReplace_eq plan [] (by simp) hnd]
  simp

theorem lookupStore_applyCopies (plan : List PlanItem)
    (hnd : (plan.map (·.resource_name)).Nodup) {e : PlanItem} (he : e ∈ plan) :
    lookupStore (applyCopies plan) e.resource_name = some e.source_content := by
  rw [applyCopies_eq_map plan hnd]
  induction plan with
  | nil => cases he
  | cons e0 es ih =>
    rw [List.map_cons] at hnd
    have hnd2 := List.nodup_cons.mp hnd
    rcases List.mem_cons.mp he with rfl | hmem
    · unfold lookupStore
      simp [List.find?]
    · have hne : e0.resource_name ≠ e.resource_name := by
        intro hcontra
        exact hnd2.1 (hcontra ▸ List.mem_map_of_mem (·.resource_name) hmem)
      unfold lookupStore at ih ⊢
      rw [List.map_cons, List.find?]
      have : ((e0.resource_name, e0.source_content).1 == e.resource_name) = false := by
        simpa using hne
      rw [this]
      exact ih hnd2.2 hmem

theorem length_applyCopies (plan : List PlanItem)
    (hnd : (plan.map (·.resource_name)).Nodup) :
    (applyCopies plan).length = plan.length := by
  rw [applyCopies_eq_map plan hnd, List.length_map]

/-! ## Scan and database lemmas -/

theorem fileDatabase_cons (hashFn : List Nat → String) (d : YearDir) (ds : List YearDir)
    (f : String) :
    fileDatabase hashFn (d :: ds) f
      = ((dllFiles d).filter (fun fl => fl.name == f)).map (mkEntry hashFn d.name)
        ++ fileDatabase hashFn ds f := by
  simp [fileDatabase]

theorem mem_yearDirs {dirs : List YearDir} {d : YearDir} :
    d ∈ yearDirs dirs ↔ d ∈ dirs ∧ isYearName d.name = true := by
  unfold yearDirs
  rw [List.Perm.mem_iff (sortKey_perm _ _), List.mem_filter]

theorem filterYears_names_nodup {dirs : List YearDir} (h : (dirs.map (·.name)).Nodup) :
    ((dirs.filter (fun d => isYearName d.name)).map (·.name)).Nodup := by
  have hsub0 : (dirs.filter (fun d => isYearName d.name)).Sublist dirs :=
    List.filter_sublist dirs
  have hsub1 : ((dirs.filter (fun d => isYearName d.name)).map (·.name)).Sublist
      (dirs.map (·.name)) := hsub0.map (fun d : YearDir => d.name)
  exact hsub1.nodup h

theorem yearDirs_names_nodup {dirs : List YearDir} (h : (dirs.map (·.name)).Nodup) :
    ((yearDirs dirs).map (·.name)).Nodup := by
  have hperm0 : (yearDirs dirs).Perm (dirs.filter (fun d => isYearName d.name)) :=
    sortKey_perm (fun d : YearDir => d.name) _
  have hperm : ((yearDirs dirs).map (·.name)).Perm
      ((dirs.filter (fun d => isYearName d.name)).map (·.name)) :=
    hperm0.map (fun d : YearDir => d.name)
  exact hperm.nodup_iff.mpr (filterYears_names_nodup h)

theorem yearDirs_strict {dirs : List YearDir} (h : (dirs.map (·.name)).Nodup) :
    (yearDirs dirs).Pairwise (fun a b => strLt a.name b.name = true) :=
  sortKey_strict (fun d : YearDir => d.name) _ (filterYears_names_nodup h)

theorem dll_filter_length_le_one {files : List SrcFile} (h : (files.map (·.name)).Nodup)
    (p : SrcFile → Bool) (f : String) :
    ((files.filter p).filter (fun fl => fl.name == f)).length ≤ 1 := by
  induction files with
  | nil => simp
  | cons fl fls ih =>
    rw [List.map_cons, List.nodup_cons] at h
    rw [List.filter_cons]
    by_cases hp : p fl = true
    · rw [if_pos hp, List.filter_cons]
      by_cases hf : (fl.name == f) = true
      · rw [if_pos hf]
        have hnil : (fls.filter p).filter (fun x => x.name == f) = [] := by
          rw [List.filter_eq_nil_iff]
          intro x hx hxf
          have hx1 : x ∈ fls := List.mem_of_mem_filter hx
          have hxn : x.name = fl.name := by
            rw [beq_iff_eq] at hxf hf
            rw [hxf, hf]
          exact h.1 (hxn ▸ List.mem_map_of_mem (·.name) hx1)
        rw [hnil]
        simp
      · rw [if_neg hf]
        exact ih h.2
    · rw [if_neg hp]
      exact ih h.2

theorem dllFiles_filter_le_one {d : YearDir} (h : (d.files.map (·.name)).Nodup) (f : String) :
    ((dllFiles d).filter (fun fl => fl.name == f)).length ≤ 1 :=
  dll_filter_length_le_one h _ f

theorem fileDatabase_years_sublist (hashFn : List Nat → String) (yds : List YearDir) (f : String)
    (h : ∀ d ∈ yds, ((dllFiles d).filter (fun fl => fl.name == f)).length ≤ 1) :
    ((fileDatabase hashFn yds f).map (·.year)).Sublist (yds.map (·.name)) := by
  induction yds with
  | nil => simp [fileDatabase]
  | cons d ds ih =>
    rw [fileDatabase_cons, List.map_append, List.map_cons]
    have hd := h d (List.mem_cons_self d ds)
    have hrest := ih (fun d2 hd2 => h d2 (List.mem_cons_of_mem d hd2))
    cases hfl : (dllFiles d).filter (fun fl => fl.name == f) with
    | nil =>
      simp only [List.map_nil, List.nil_append]
      exact hrest.cons d.name
    | cons x xs =>
      rw [hfl] at hd
      have hxs : xs = [] := by
        cases xs with
        | nil => rfl
        | cons y ys => simp at hd
      subst hxs
      simp only [List.map_cons, List.map_nil, List.cons_append, List.nil_append]
      have : (mkEntry hashFn d.name x).year = d.name := rfl
      rw [this]
      exact hrest.cons₂ d.name

theorem mem_fileDatabase {hashFn : List Nat → String} {yds : List YearDir} {f : String}
    {e : Entry} :
    e ∈ fileDatabase hashFn yds f
      ↔ ∃ d ∈ yds, ∃ fl ∈ dllFiles d, fl.name = f ∧ e = mkEntry hashFn d.name fl := by
  unfold fileDatabase
  rw [List.mem_flatMap]
  constructor
  · rintro ⟨d, hd, he⟩
    rw [List.mem_map] at he
    obtain ⟨fl, hfl, rfl⟩ := he
    rw [List.mem_filter] at hfl
    exact ⟨d, hd, fl, hfl.1, by simpa using hfl.2, rfl⟩
  · rintro ⟨d, hd, fl, hfl, hname, rfl⟩
    refine ⟨d, hd, ?_⟩
    rw [List.mem_map]
    exact ⟨fl, List.mem_filter.mpr ⟨hfl, by simpa using hname⟩, rfl⟩

theorem mem_hashedContents {yds : List YearDir} {c : List Nat} :
    c ∈ hashedContents yds ↔ ∃ d ∈ yds, ∃ fl ∈ dllFiles d, fl.content = c := by
  unfold hashedContents
  rw [List.mem_flatMap]
  constructor
  · rintro ⟨d, hd, hc⟩
    rw [List.mem_map] at hc
    obtain ⟨fl, hfl, rfl⟩ := hc
    exact ⟨d, hd, fl, hfl, rfl⟩
  · rintro ⟨d, hd, fl, hfl, rfl⟩
    exact ⟨d, hd, List.mem_map_of_mem (·.content) hfl⟩

/-! ## Grouping lemmas -/

theorem mem_groupByHash {entries : List Entry} {g : String × List Entry} :
    g ∈ groupByHash entries
      ↔ g.1 ∈ firstDedup (entries.map (·.hash))
        ∧ g.2 = entries.filter (fun e => e.hash == g.1) := by
  unfold groupByHash
  rw [List.mem_map]
  constructor
  · rintro ⟨h, hh, rfl⟩
    exact ⟨hh, rfl⟩
  · rintro ⟨h1, h2⟩
    exact ⟨g.1, h1, by rw [← h2]⟩

theorem groupByHash_keys_eq (entries : List Entry) :
    (groupByHash entries).map Prod.fst = firstDedup (entries.map (·.hash)) := by
  unfold groupByHash
  rw [List.map_map]
  exact List.map_id _

theorem groupByHash_keys_nodup (entries : List Entry) :
    ((groupByHash entries).map Prod.fst).Nodup := by
  rw [groupByHash_keys_eq]
  exact nodup_firstDedup _

theorem mem_of_mem_group {entries : List Entry} {g : String × List Entry} {e : Entry}
    (hg : g ∈ groupByHash entries) (he : e ∈ g.2) : e ∈ entries ∧ e.hash = g.1 := by
  obtain ⟨_, h2⟩ := mem_groupByHash.mp hg
  rw [h2, List.mem_filter] at he
  exact ⟨he.1, by simpa using he.2⟩

theorem group_ne_nil {entries : List Entry} {g : String × List Entry}
    (hg : g ∈ groupByHash entries) : g.2 ≠ [] := by
  obtain ⟨h1, h2⟩ := mem_groupByHash.mp hg
  rw [mem_firstDedup, List.mem_map] at h1
  obtain ⟨e, he, hhash⟩ := h1
  have : e ∈ g.2 := by
    rw [h2, List.mem_filter]
    exact ⟨he, by simpa using hhash⟩
  exact List.ne_nil_of_mem this

theorem exists_group_of_mem {entries : List Entry} {e : Entry} (he : e ∈ entries) :
    ∃ g ∈ groupByHash entries, e ∈ g.2 := by
  refine ⟨(e.hash, entries.filter (fun x => x.hash == e.hash)), ?_, ?_⟩
  · exact mem_groupByHash.mpr
      ⟨(mem_firstDedup _ _).mpr (List.mem_map_of_mem (·.hash) he), rfl⟩
  · rw [List.mem_filter]
    exact ⟨he, by simp⟩

theorem group_years_sublist {entries : List Entry} {g : String × List Entry}
    (hg : g ∈ groupByHash entries) :
    (g.2.map (·.year)).Sublist (entries.map (·.year)) := by
  obtain ⟨_, h2⟩ := mem_groupByHash.mp hg
  rw [h2]
  exact (List.filter_sublist entries).map _

/-! ## Plan lemmas -/

theorem mem_deduplicationPlan {hashFn : List Nat → String} {yds : List YearDir} {p : PlanItem} :
    p ∈ deduplicationPlan hashFn yds
      ↔ ∃ f ∈ dbKeys yds, ∃ g ∈ groupByHash (fileDatabase hashFn yds f),
          p = mkPlanItem yds.length f g := by
  unfold deduplicationPlan
  rw [List.mem_flatMap]
  constructor
  · rintro ⟨f, hf, hp⟩
    rw [List.mem_map] at hp
    obtain ⟨g, hg, rfl⟩ := hp
    exact ⟨f, hf, g, hg, rfl⟩
  · rintro ⟨f, hf, g, hg, rfl⟩
    exact ⟨f, hf, List.mem_map_of_mem _ hg⟩

theorem dbKeys_nodup (yds : List YearDir) : (dbKeys yds).Nodup :=
  ((sortKey_perm id _).nodup_iff).mpr (nodup_firstDedup (scanNames yds))

theorem mem_dbKeys {yds : List YearDir} {f : String} :
    f ∈ dbKeys yds ↔ f ∈ scanNames yds :=
  ((sortKey_perm id _).mem_iff).trans (mem_firstDedup _ f)

theorem mem_scanNames {yds : List YearDir} {f : String} :
    f ∈ scanNames yds ↔ ∃ d ∈ yds, ∃ fl ∈ dllFiles d, fl.name = f := by
  unfold scanNames
  rw [List.mem_flatMap]
  constructor
  · rintro ⟨d, hd, hf⟩
    rw [List.mem_map] at hf
    obtain ⟨fl, hfl, rfl⟩ := hf
    exact ⟨d, hd, fl, hfl, rfl⟩
  · rintro ⟨d, hd, fl, hfl, rfl⟩
    exact ⟨d, hd, List.mem_map_of_mem (·.name) hfl⟩

/-! ## Resource-name anatomy -/

theorem resourceName_eq (n : Nat) (f : String) (ys : List String) :
    resourceName n f ys
      = if ys.length = n then "_common." ++ f else "_" ++ ys.headD "" ++ "." ++ f := by
  unfold resourceName
  by_cases h : ys.length = n
  · rw [if_pos h, if_pos h]
  · rw [if_neg h, if_neg h]
    by_cases h1 : ys.length = 1
    · rw [if_pos h1]
    · rw [if_neg h1]

theorem isYearName_data {y : String} (hy : isYearName y = true) :
    ∃ c1 c2 c3 c4, y.data = [c1, c2, c3, c4]
      ∧ c1.isDigit = true ∧ c2.isDigit = true ∧ c3.isDigit = true ∧ c4.isDigit = true := by
  unfold isYearName at hy
  rw [Bool.and_eq_true] at hy
  obtain ⟨hlen, hall⟩ := hy
  rw [beq_iff_eq] at hlen
  rw [List.all_eq_true] at hall
  cases h1 : y.data with
  | nil => rw [h1] at hlen; simp at hlen
  | cons c1 t1 =>
    cases h2 : t1 with
    | nil => rw [h1, h2] at hlen; simp at hlen
    | cons c2 t2 =>
      cases h3 : t2 with
      | nil => rw [h1, h2, h3] at hlen; simp at hlen
      | cons c3 t3 =>
        cases h4 : t3 with
        | nil => rw [h1, h2, h3, h4] at hlen; simp at hlen
        | cons c4 t4 =>
          have ht4 : t4 = [] := by
            rw [h1, h2, h3, h4] at hlen
            simpa using hlen
          subst ht4
          refine ⟨c1, c2, c3, c4, rfl, ?_, ?_, ?_, ?_⟩
          · exact hall c1 (by rw [h1]; exact List.mem_cons_self _ _)
          · exact hall c2 (by rw [h1, h2]; simp)
          · exact hall c3 (by rw [h1, h2, h3]; simp)
          · exact hall c4 (by rw [h1, h2, h3, h4]; simp)

theorem str_append_left_cancel {s f1 f2 : String} (h : s ++ f1 = s ++ f2) : f1 = f2 := by
  have hd := congrArg String.data h
  rw [String.data_append, String.data_append] at hd
  exact String.ext (List.append_cancel_left hd)

theorem common_ne_anchor {y f1 f2 : String} (hy : isYearName y = true) :
    "_common." ++ f1 ≠ "_" ++ y ++ "." ++ f2 := by
  intro heq
  have hdata := congrArg String.data heq
  rw [String.data_append, String.data_append, String.data_append, String.data_append] at hdata
  obtain ⟨c1, c2, c3, c4, hydata, hd1, _, _, _⟩ := isYearName_data hy
  rw [hydata] at hdata
  simp only [List.append_assoc, List.cons_append, List.nil_append] at hdata
  have hc : ('c' : Char) = c1 := by
    have := congrArg (fun l => l.get? 1) hdata
    simpa using this
  rw [← hc] at hd1
  simp at hd1

theorem anchor_inj {y1 y2 f1 f2 : String} (h1 : isYearName y1 = true)
    (h2 : isYearName y2 = true)
    (heq : "_" ++ y1 ++ "." ++ f1 = "_" ++ y2 ++ "." ++ f2) : y1 = y2 ∧ f1 = f2 := by
  have hdata := congrArg String.data heq
  rw [String.data_append, String.data_append, String.data_append,
    String.data_append, String.data_append, String.data_append] at hdata
  obtain ⟨a1, a2, a3, a4, hy1, _, _, _, _⟩ := isYearName_data h1
  obtain ⟨b1, b2, b3, b4, hy2, _, _, _, _⟩ := isYearName_data h2
  rw [hy1, hy2] at hdata
  simp only [List.append_assoc, List.cons_append, List.nil_append] at hdata
  -- hdata : '_' :: a1 :: a2 :: a3 :: a4 :: '.' :: f1.data = '_' :: b1 :: ... :: f2.data
  injection hdata with he0 hdata
  injection hdata with he1 hdata
  injection hdata with he2 hdata
  injection hdata with he3 hdata
  injection hdata with he4 hdata
  injection hdata with he5 hdata
  constructor
  · exact String.ext (by rw [hy1, hy2, he1, he2, he3, he4])
  · exact String.ext hdata

theorem headD_mem {l : List String} (h : l ≠ []) : l.headD "" ∈ l := by
  cases l with
  | nil => exact absurd rfl h
  | cons a t => exact List.mem_cons_self a t

/-! ## Name-uniqueness core -/

theorem group_years_of_db {hashFn : List Nat → String} {yds : List YearDir} {f : String}
    {g : String × List Entry}
    (hfiles : ∀ d ∈ yds, (d.files.map (·.name)).Nodup)
    (hg : g ∈ groupByHash (fileDatabase hashFn yds f)) :
    (g.2.map (·.year)).Sublist (yds.map (·.name)) :=
  (group_years_sublist hg).trans
    (fileDatabase_years_sublist hashFn yds f
      (fun d hd => dllFiles_filter_le_one (hfiles d hd) f))

theorem group_years_ne_nil {entries : List Entry} {g : String × List Entry}
    (hg : g ∈ groupByHash entries) : g.2.map (·.year) ≠ [] := by
  intro h
  exact group_ne_nil hg (List.map_eq_nil_iff.mp h)

theorem group_head_isYear {hashFn : List Nat → String} {yds : List YearDir} {f : String}
    {g : String × List Entry}
    (hfiles : ∀ d ∈ yds, (d.files.map (·.name)).Nodup)
    (hyears : ∀ d ∈ yds, isYearName d.name = true)
    (hg : g ∈ groupByHash (fileDatabase hashFn yds f)) :
    isYearName ((g.2.map (·.year)).headD "") = true := by
  have hmem : (g.2.map (·.year)).headD "" ∈ g.2.map (·.year) :=
    headD_mem (group_years_ne_nil hg)
  have hmem2 : (g.2.map (·.year)).headD "" ∈ yds.map (·.name) :=
    (group_years_of_db hfiles hg).subset hmem
  rw [List.mem_map] at hmem2
  obtain ⟨d, hd, hdn⟩ := hmem2
  rw [← hdn]
  exact hyears d hd

theorem db_years_nodup (hashFn : List Nat → String) (yds : List YearDir) (f : String)
    (hnames : (yds.map (·.name)).Nodup)
    (hfiles : ∀ d ∈ yds, (d.files.map (·.name)).Nodup) :
    ((fileDatabase hashFn yds f).map (·.year)).Nodup :=
  (fileDatabase_years_sublist hashFn yds f
    (fun d hd => dllFiles_filter_le_one (hfiles d hd) f)).nodup hnames

theorem groups_years_disjoint {entries : List Entry} {g1 g2 : String × List Entry}
    (hnd : (entries.map (·.year)).Nodup)
    (hg1 : g1 ∈ groupByHash entries) (hg2 : g2 ∈ groupByHash entries)
    (hkey : g1.1 ≠ g2.1) {y : String}
    (hy1 : y ∈ g1.2.map (·.year)) (hy2 : y ∈ g2.2.map (·.year)) : False := by
  rw [List.mem_map] at hy1 hy2
  obtain ⟨e1, he1, hye1⟩ := hy1
  obtain ⟨e2, he2, hye2⟩ := hy2
  have h1 := mem_of_mem_group hg1 he1
  have h2 := mem_of_mem_group hg2 he2
  have heq : e1 = e2 :=
    List.inj_on_of_nodup_map hnd h1.1 h2.1 (by rw [hye1, hye2])
  exact hkey (by rw [← h1.2, ← h2.2, heq])

theorem group_key_ne_of_ne {entries : List Entry} {g1 g2 : String × List Entry}
    (hg1 : g1 ∈ groupByHash entries) (hg2 : g2 ∈ groupByHash entries)
    (hne : g1 ≠ g2) : g1.1 ≠ g2.1 := by
  intro hkey
  obtain ⟨_, h12⟩ := mem_groupByHash.mp hg1
  obtain ⟨_, h22⟩ := mem_groupByHash.mp hg2
  apply hne
  apply Prod.ext hkey
  rw [h12, h22, hkey]

theorem resourceName_ne_within {hashFn : List Nat → String} {yds : List YearDir} {f : String}
    {g1 g2 : String × List Entry}
    (hnames : (yds.map (·.name)).Nodup)
    (hfiles : ∀ d ∈ yds, (d.files.map (·.name)).Nodup)
    (hyears : ∀ d ∈ yds, isYearName d.name = true)
    (hg1 : g1 ∈ groupByHash (fileDatabase hashFn yds f))
    (hg2 : g2 ∈ groupByHash (fileDatabase hashFn yds f))
    (hkey : g1.1 ≠ g2.1) :
    resourceName yds.length f (g1.2.map (·.year))
      ≠ resourceName yds.length f (g2.2.map (·.year)) := by
  intro heq
  rw [resourceName_eq, resourceName_eq] at heq
  have hnd := db_years_nodup hashFn yds f hnames hfiles
  have hne1 : g1.2.map (·.year) ≠ [] := group_years_ne_nil hg1
  have hne2 : g2.2.map (·.year) ≠ [] := group_years_ne_nil hg2
  by_cases hl1 : (g1.2.map (·.year)).length = yds.length
  · by_cases hl2 : (g2.2.map (·.year)).length = yds.length
    · have he1 : g1.2.map (·.year) = yds.map (·.name) :=
        (group_years_of_db hfiles hg1).eq_of_length (by rw [hl1, List.length_map])
      have he2 : g2.2.map (·.year) = yds.map (·.name) :=
        (group_years_of_db hfiles hg2).eq_of_length (by rw [hl2, List.length_map])
      have hm : (g1.2.map (·.year)).headD "" ∈ g1.2.map (·.year) := headD_mem hne1
      exact groups_years_disjoint hnd hg1 hg2 hkey hm (by rw [he2, ← he1]; exact hm)
    · rw [if_pos hl1, if_neg hl2] at heq
      exact common_ne_anchor (group_head_isYear hfiles hyears hg2) heq
  · by_cases hl2 : (g2.2.map (·.year)).length = yds.length
    · rw [if_neg hl1, if_pos hl2] at heq
      exact common_ne_anchor (group_head_isYear hfiles hyears hg1) heq.symm
    · rw [if_neg hl1, if_neg hl2] at heq
      obtain ⟨hy, _⟩ := anchor_inj (group_head_isYear hfiles hyears hg1)
        (group_head_isYear hfiles hyears hg2) heq
      have hm1 : (g1.2.map (·.year)).headD "" ∈ g1.2.map (·.year) := headD_mem hne1
      have hm2 : (g2.2.map (·.year)).headD "" ∈ g2.2.map (·.year) := headD_mem hne2
      rw [hy] at hm1
      exact groups_years_disjoint hnd hg1 hg2 hkey hm1 hm2

theorem resourceName_ne_across {hashFn : List Nat → String} {yds : List YearDir}
    {f1 f2 : String} {g1 g2 : String × List Entry}
    (hfiles : ∀ d ∈ yds, (d.files.map (·.name)).Nodup)
    (hyears : ∀ d ∈ yds, isYearName d.name = true)
    (hg1 : g1 ∈ groupByHash (fileDatabase hashFn yds f1))
    (hg2 : g2 ∈ groupByHash (fileDatabase hashFn yds f2))
    (hne : f1 ≠ f2) :
    resourceName yds.length f1 (g1.2.map (·.year))
      ≠ resourceName yds.length f2 (g2.2.map (·.year)) := by
  intro heq
  rw [resourceName_eq, resourceName_eq] at heq
  by_cases hl1 : (g1.2.map (·.year)).length = yds.length
  · by_cases hl2 : (g2.2.map (·.year)).length = yds.length
    · rw [if_pos hl1, if_pos hl2] at heq
      exact hne (str_append_left_cancel heq)
    · rw [if_pos hl1, if_neg hl2] at heq
      exact common_ne_anchor (group_head_isYear hfiles hyears hg2) heq
  · by_cases hl2 : (g2.2.map (·.year)).length = yds.length
    · rw [if_neg hl1, if_pos hl2] at heq
      exact common_ne_anchor (group_head_isYear hfiles hyears hg1) heq.symm
    · rw [if_neg hl1, if_neg hl2] at heq
      exact hne (anchor_inj (group_head_isYear hfiles hyears hg1)
        (group_head_isYear hfiles hyears hg2) heq).2

theorem plan_names_nodup (hashFn : List Nat → String) (yds : List YearDir)
    (hnames : (yds.map (·.name)).Nodup)
    (hfiles : ∀ d ∈ yds, (d.files.map (·.name)).Nodup)
    (hyears : ∀ d ∈ yds, isYearName d.name = true) :
    ((deduplicationPlan hashFn yds).map (·.resource_name)).Nodup := by
  apply List.Pairwise.map (fun p : PlanItem => p.resource_name)
    (fun p q (h : p.resource_name ≠ q.resource_name) => h)
  unfold deduplicationPlan
  rw [List.pairwise_flatMap]
  constructor
  · intro f hf
    apply List.Pairwise.map (mkPlanItem yds.length f)
      (fun g1 g2 (h : (mkPlanItem yds.length f g1).resource_name
        ≠ (mkPlanItem yds.length f g2).resource_name) => h)
    have hpw : (groupByHash (fileDatabase hashFn yds f)).Pairwise
        (fun g1 g2 => g1.1 ≠ g2.1) :=
      List.pairwise_map.mp (groupByHash_keys_nodup (fileDatabase hashFn yds f))
    refine hpw.imp_of_mem ?_
    intro g1 g2 hg1 hg2 hkey
    exact resourceName_ne_within hnames hfiles hyears hg1 hg2 hkey
  · have hnd : (dbKeys yds).Pairwise (fun f1 f2 => f1 ≠ f2) := dbKeys_nodup yds
    refine hnd.imp_of_mem ?_
    intro f1 f2 hf1 hf2 hne p hp q hq
    rw [List.mem_map] at hp hq
    obtain ⟨g1, hg1, rfl⟩ := hp
    obtain ⟨g2, hg2, rfl⟩ := hq
    exact resourceName_ne_across hfiles hyears hg1 hg2 hne

/-! ## Run-shape lemmas -/

theorem bool_eq_false {b : Bool} (h : ¬ b = true) : b = false := by
  cases b
  · rfl
  · exact absurd rfl h

theorem bool_eq_true {b : Bool} (h : ¬ b = false) : b = true := by
  cases b
  · exact absurd rfl h
  · rfl

theorem mainRun_fail_source {hashFn : List Nat → String} {inp : InputFS}
    (hs : inp.sourceExists = false) :
    mainRun hashFn inp
      = { exit := 1, outDir := inp.prevOutput, hashed := [], plan := [] } := by
  simp [mainRun, hs]

theorem mainRun_fail_validation {hashFn : List Nat → String} {inp : InputFS}
    (hs : inp.sourceExists = true)
    (h : (yearDirs inp.dirs).isEmpty = true
       ∨ (missingYearDirs (yearDirs inp.dirs)).isEmpty = false
       ∨ validateDlls (yearDirs inp.dirs) = false) :
    mainRun hashFn inp
      = { exit := 1, outDir := some { resources := [], mapping := none },
          hashed := [], plan := [] } := by
  unfold mainRun
  rw [hs]
  rcases h with h | h | h
  · simp [h]
  · by_cases hy : (yearDirs inp.dirs).isEmpty = true
    · simp [hy]
    · simp [bool_eq_false hy, h]
  · by_cases hy : (yearDirs inp.dirs).isEmpty = true
    · simp [hy]
    · by_cases hm : (missingYearDirs (yearDirs inp.dirs)).isEmpty = false
      · simp [bool_eq_false hy, hm]
      · simp [bool_eq_false hy, bool_eq_true hm, h]

theorem mainRun_accepted_of_exit_zero {hashFn : List Nat → String} {inp : InputFS}
    (h : (mainRun hashFn inp).exit = 0) :
    inp.sourceExists = true ∧ (yearDirs inp.dirs).isEmpty = false
      ∧ (missingYearDirs (yearDirs inp.dirs)).isEmpty = true
      ∧ validateDlls (yearDirs inp.dirs) = true := by
  by_cases hs : inp.sourceExists = true
  · by_cases hy : (yearDirs inp.dirs).isEmpty = false
    · by_cases hm : (missingYearDirs (yearDirs inp.dirs)).isEmpty = true
      · by_cases hv : validateDlls (yearDirs inp.dirs) = true
        · exact ⟨hs, hy, hm, hv⟩
        · rw [mainRun_fail_validation hs (Or.inr (Or.inr (bool_eq_false hv)))] at h
          simp at h
      · rw [mainRun_fail_validation hs (Or.inr (Or.inl (bool_eq_false hm)))] at h
        simp at h
    · rw [mainRun_fail_validation hs (Or.inl (bool_eq_true hy))] at h
      simp at h
  · rw [mainRun_fail_source (bool_eq_false hs)] at h
    simp at h

theorem mainRun_success_eq {hashFn : List Nat → String} {inp : InputFS}
    (hs : inp.sourceExists = true) (h1 : (yearDirs inp.dirs).isEmpty = false)
    (h2 : (missingYearDirs (yearDirs inp.dirs)).isEmpty = true)
    (h3 : validateDlls (yearDirs inp.dirs) = true) :
    mainRun hashFn inp =
      { exit := 0
        outDir := some
          { resources := applyCopies (deduplicationPlan hashFn (yearDirs inp.dirs))
            mapping := some (mappingContent (deduplicationPlan hashFn (yearDirs inp.dirs))) }
        hashed := hashedContents (yearDirs inp.dirs)
        plan := deduplicationPlan hashFn (yearDirs inp.dirs) } := by
  unfold mainRun
  rw [hs]
  simp [h1, h2, h3]

theorem wf_yds_names_nodup {inp : InputFS} (hwf : WfInput inp) :
    ((yearDirs inp.dirs).map (·.name)).Nodup :=
  yearDirs_names_nodup hwf.1

theorem wf_yds_files_nodup {inp : InputFS} (hwf : WfInput inp) :
    ∀ d ∈ yearDirs inp.dirs, (d.files.map (·.name)).Nodup :=
  fun d hd => hwf.2 d (mem_yearDirs.mp hd).1

theorem wf_yds_isYear {inp : InputFS} :
    ∀ d ∈ yearDirs inp.dirs, isYearName d.name = true :=
  fun _ hd => (mem_yearDirs.mp hd).2

/-! ## Years of a plan item -/

theorem headD_mem_of_ne_nil {α : Type} {l : List α} {d0 : α} (h : l ≠ []) : l.headD d0 ∈ l := by
  cases l with
  | nil => exact absurd rfl h
  | cons a t => exact List.mem_cons_self a t

theorem yds_names_pairwise {dirs : List YearDir} (h : (dirs.map (·.name)).Nodup) :
    ((yearDirs dirs).map (·.name)).Pairwise (fun a b => strLt a b = true) :=
  List.pairwise_map.mpr (yearDirs_strict h)

theorem group_years_strict {hashFn : List Nat → String} {yds : List YearDir} {f : String}
    {g : String × List Entry}
    (hfiles : ∀ d ∈ yds, (d.files.map (·.name)).Nodup)
    (hstrict : (yds.map (·.name)).Pairwise (fun a b => strLt a b = true))
    (hg : g ∈ groupByHash (fileDatabase hashFn yds f)) :
    (g.2.map (·.year)).Pairwise (fun a b => strLt a b = true) :=
  List.Pairwise.sublist (group_years_of_db hfiles hg) hstrict

/-! ## Plan filter characterization -/

theorem flatMap_filter (p : β → Bool) (l : List α) (F : α → List β) :
    (l.flatMap F).filter p = l.flatMap (fun a => (F a).filter p) := by
  induction l with
  | nil => rfl
  | cons a as ih => rw [List.flatMap_cons, List.flatMap_cons, List.filter_append, ih]

theorem flatMap_eq_nil_of_forall {l : List α} {F : α → List β}
    (h : ∀ a ∈ l, F a = []) : l.flatMap F = [] := by
  induction l with
  | nil => rfl
  | cons a as ih =>
    rw [List.flatMap_cons, h a (List.mem_cons_self a as), List.nil_append]
    exact ih (fun b hb => h b (List.mem_cons_of_mem a hb))

theorem flatMap_single {l : List α} {F : α → List β} {a : α}
    (hnd : l.Nodup) (ha : a ∈ l) (h0 : ∀ b ∈ l, b ≠ a → F b = []) :
    l.flatMap F = F a := by
  induction l with
  | nil => cases ha
  | cons x xs ih =>
    rw [List.nodup_cons] at hnd
    rw [List.flatMap_cons]
    rcases List.mem_cons.mp ha with heq | hmem
    · have hnil : xs.flatMap F = [] :=
        flatMap_eq_nil_of_forall (fun b hb => h0 b (List.mem_cons_of_mem _ hb)
          (fun hba => hnd.1 (heq ▸ hba ▸ hb)))
      rw [hnil, List.append_nil, heq]
    · rw [h0 x (List.mem_cons_self x xs) (fun hxa => hnd.1 (hxa ▸ hmem)), List.nil_append]
      exact ih hnd.2 hmem (fun b hb hba => h0 b (List.mem_cons_of_mem x hb) hba)

theorem filter_key_singleton {γ : Type} {key : γ → String} {l : List γ} {h : String}
    (hnd : (l.map key).Nodup) (hm : h ∈ l.map key) :
    ∃ x, l.filter (fun g => key g == h) = [x] ∧ x ∈ l ∧ key x = h := by
  induction l with
  | nil => cases hm
  | cons g gs ih =>
    rw [List.map_cons, List.nodup_cons] at hnd
    rw [List.filter_cons]
    by_cases hk : (key g == h) = true
    · rw [if_pos hk]
      rw [beq_iff_eq] at hk
      have hnil : gs.filter (fun x => key x == h) = [] := by
        rw [List.filter_eq_nil_iff]
        intro x hx hxk
        rw [beq_iff_eq] at hxk
        exact hnd.1 (by rw [hk, ← hxk]; exact List.mem_map_of_mem key hx)
      rw [hnil]
      exact ⟨g, rfl, List.mem_cons_self g gs, hk⟩
    · rw [if_neg hk]
      have hm2 : h ∈ gs.map key := by
        rw [List.map_cons] at hm
        rcases List.mem_cons.mp hm with he | hm2
        · exact absurd (beq_iff_eq.mpr he.symm) hk
        · exact hm2
      obtain ⟨x, hfx, hxl, hxk⟩ := ih hnd.2 hm2
      exact ⟨x, hfx, List.mem_cons_of_mem g hxl, hxk⟩

theorem group_contains_iff {hashFn : List Nat → String} {yds : List YearDir} {f : String}
    {g : String × List Entry}
    (hnames : (yds.map (·.name)).Nodup)
    (hfiles : ∀ d ∈ yds, (d.files.map (·.name)).Nodup)
    (hg : g ∈ groupByHash (fileDatabase hashFn yds f))
    {d : YearDir} (hd : d ∈ yds) {fl : SrcFile} (hfl : fl ∈ dllFiles d)
    (hname : fl.name = f) :
    d.name ∈ g.2.map (·.year) ↔ g.1 = hashFn fl.content := by
  have he0 : mkEntry hashFn d.name fl ∈ fileDatabase hashFn yds f :=
    mem_fileDatabase.mpr ⟨d, hd, fl, hfl, hname, rfl⟩
  have hnd := db_years_nodup hashFn yds f hnames hfiles
  constructor
  · intro hy
    rw [List.mem_map] at hy
    obtain ⟨e, he, hey⟩ := hy
    have hm := mem_of_mem_group hg he
    have heq : e = mkEntry hashFn d.name fl :=
      List.inj_on_of_nodup_map hnd hm.1 he0 (by simpa [mkEntry] using hey)
    rw [← hm.2, heq]
    rfl
  · intro hh
    obtain ⟨_, h2⟩ := mem_groupByHash.mp hg
    have hmem : mkEntry hashFn d.name fl ∈ g.2 := by
      rw [h2, List.mem_filter]
      exact ⟨he0, by simp [mkEntry, hh]⟩
    rw [List.mem_map]
    exact ⟨mkEntry hashFn d.name fl, hmem, rfl⟩

theorem hash_mem_group_keys {hashFn : List Nat → String} {yds : List YearDir} {f : String}
    {d : YearDir} (hd : d ∈ yds) {fl : SrcFile} (hfl : fl ∈ dllFiles d)
    (hname : fl.name = f) :
    hashFn fl.content ∈ (groupByHash (fileDatabase hashFn yds f)).map Prod.fst := by
  rw [groupByHash_keys_eq, mem_firstDedup, List.mem_map]
  exact ⟨mkEntry hashFn d.name fl, mem_fileDatabase.mpr ⟨d, hd, fl, hfl, hname, rfl⟩, rfl⟩

theorem plan_filter_unique {hashFn : List Nat → String} {yds : List YearDir}
    (hnames : (yds.map (·.name)).Nodup)
    (hfiles : ∀ d ∈ yds, (d.files.map (·.name)).Nodup)
    {d : YearDir} (hd : d ∈ yds) {fl : SrcFile} (hfl : fl ∈ dllFiles d) :
    ∃ p : PlanItem,
      (deduplicationPlan hashFn yds).filter
          (fun e => e.filename == fl.name && e.years.contains d.name) = [p]
      ∧ p ∈ deduplicationPlan hashFn yds := by
  have hkey : fl.name ∈ dbKeys yds :=
    mem_dbKeys.mpr (mem_scanNames.mpr ⟨d, hd, fl, hfl, rfl⟩)
  unfold deduplicationPlan
  rw [flatMap_filter]
  rw [flatMap_single (dbKeys_nodup yds) hkey ?notk]
  case notk =>
    intro f2 hf2 hne
    rw [List.filter_eq_nil_iff]
    intro p hp
    rw [List.mem_map] at hp
    obtain ⟨g, hg, rfl⟩ := hp
    have : ((mkPlanItem yds.length f2 g).filename == fl.name) = false := by
      simp [mkPlanItem]
      exact hne
    simp [this]
  rw [List.filter_map]
  have hcongr : (groupByHash (fileDatabase hashFn yds fl.name)).filter
        ((fun e => e.filename == fl.name && e.years.contains d.name)
          ∘ mkPlanItem yds.length fl.name)
      = (groupByHash (fileDatabase hashFn yds fl.name)).filter
        (fun g => g.1 == hashFn fl.content) := by
    apply List.filter_congr
    intro g hg
    rw [Bool.eq_iff_iff]
    constructor
    · intro hb
      simp only [Function.comp, mkPlanItem, Bool.and_eq_true, beq_iff_eq] at hb
      rw [beq_iff_eq]
      refine (group_contains_iff hnames hfiles hg hd hfl rfl).mp ?_
      have hb2 := hb.2
      rw [List.contains_eq_any_beq, List.any_eq_true] at hb2
      obtain ⟨y, hy, hyy⟩ := hb2
      rw [beq_iff_eq] at hyy
      rw [hyy]
      exact hy
    · intro hb
      rw [beq_iff_eq] at hb
      have hcontains : d.name ∈ g.2.map (·.year) :=
        (group_contains_iff hnames hfiles hg hd hfl rfl).mpr hb
      simp only [Function.comp, mkPlanItem, Bool.and_eq_true, beq_iff_eq]
      refine ⟨by trivial, ?_⟩
      rw [List.contains_eq_any_beq, List.any_eq_true]
      exact ⟨d.name, hcontains, by simp⟩
  rw [hcongr]
  obtain ⟨g, hfg, hgmem, hgkey⟩ := filter_key_singleton
    (groupByHash_keys_nodup (fileDatabase hashFn yds fl.name))
    (hash_mem_group_keys hd hfl rfl)
  rw [hfg]
  refine ⟨mkPlanItem yds.length fl.name g, rfl, ?_⟩
  exact mem_deduplicationPlan.mpr ⟨fl.name, hkey, g, hgmem, rfl⟩

theorem plan_item_spec {hashFn : List Nat → String} {yds : List YearDir}
    (hnames : (yds.map (·.name)).Nodup)
    (hfiles : ∀ d ∈ yds, (d.files.map (·.name)).Nodup)
    {p : PlanItem} (hp : p ∈ deduplicationPlan hashFn yds)
    {d : YearDir} (hd : d ∈ yds) {fl : SrcFile} (hfl : fl ∈ dllFiles d)
    (hpf : p.filename = fl.name) (hpy : d.name ∈ p.years) :
    p.hash = hashFn fl.content
    ∧ hashFn p.source_content = hashFn fl.content
    ∧ p.source_content ∈ hashedContents yds := by
  obtain ⟨f, hf, g, hg, rfl⟩ := mem_deduplicationPlan.mp hp
  have hff : f = fl.name := hpf
  subst hff
  have h1 : g.1 = hashFn fl.content :=
    (group_contains_iff hnames hfiles hg hd hfl rfl).mp hpy
  have hgne : g.2 ≠ [] := group_ne_nil hg
  have hhead : g.2.headD { year := "", content := [], hash := "", size := 0 } ∈ g.2 :=
    headD_mem_of_ne_nil hgne
  have hm := mem_of_mem_group hg hhead
  obtain ⟨d2, hd2, fl2, hfl2, hname2, he2⟩ := mem_fileDatabase.mp hm.1
  have hsc : (mkPlanItem yds.length fl.name g).source_content
      = (g.2.headD { year := "", content := [], hash := "", size := 0 }).content := rfl
  refine ⟨h1, ?_, ?_⟩
  · rw [hsc, he2]
    have hh2 : hashFn fl2.content = g.1 := by
      rw [← hm.2, he2]
      rfl
    rw [show (mkEntry hashFn d2.name fl2).content = fl2.content from rfl, hh2, h1]
  · rw [hsc, he2]
    exact mem_hashedContents.mpr ⟨d2, hd2, fl2, hfl2, rfl⟩

/-! ## Claim theorems -/

/-- **C1** (round trip): for every well-formed input filesystem on which `main`
succeeds, and every `.dll` file `fl` of a discovered version directory `d`,
exactly one entry of `deduplication_plan` has filename `fl.name` and a years
list containing `d.name`; every such entry carries bytes with the same digest
as `fl`, those bytes equal `fl`'s bytes when the digest function is
collision-free on the scanned contents, and the output store holds exactly
those bytes under the entry's `resource_name`.  Hence the mapping file plus
the store reproduce each version's filename set and file contents. -/
theorem C1_round_trip (hashFn : List Nat → String) (inp : InputFS)
    (hwf : WfInput inp)
    (hcoll : ∀ c1 ∈ hashedContents (yearDirs inp.dirs),
      ∀ c2 ∈ hashedContents (yearDirs inp.dirs), hashFn c1 = hashFn c2 → c1 = c2)
    (hexit : (mainRun hashFn inp).exit = 0)
    (d : YearDir) (hd : d ∈ yearDirs inp.dirs) (fl : SrcFile) (hfl : fl ∈ dllFiles d) :
    ((mainRun hashFn inp).plan.filter
        (fun e => e.filename == fl.name && e.years.contains d.name)).length = 1
    ∧ ∀ e ∈ (mainRun hashFn inp).plan, e.filename = fl.name → d.name ∈ e.years →
        hashFn e.source_content = hashFn fl.content
        ∧ e.source_content = fl.content
        ∧ ∀ st, (mainRun hashFn inp).outDir = some st →
            lookupStore st.resources e.resource_name = some e.source_content := by
  obtain ⟨hs, hy, hm, hv⟩ := mainRun_accepted_of_exit_zero hexit
  rw [mainRun_success_eq hs hy hm hv]
  have hnames := wf_yds_names_nodup hwf
  have hfiles := wf_yds_files_nodup hwf
  constructor
  · show ((deduplicationPlan hashFn (yearDirs inp.dirs)).filter
        (fun e => e.filename == fl.name && e.years.contains d.name)).length = 1
    obtain ⟨p, hfp, _⟩ := plan_filter_unique hnames hfiles hd hfl
    rw [hfp]
    rfl
  · intro e he hef hey
    have he2 : e ∈ deduplicationPlan hashFn (yearDirs inp.dirs) := he
    have hspec := plan_item_spec hnames hfiles he2 hd hfl hef hey
    refine ⟨hspec.2.1, ?_, ?_⟩
    · exact hcoll _ hspec.2.2 _ (mem_hashedContents.mpr ⟨d, hd, fl, hfl, rfl⟩) hspec.2.1
    · intro st hst
      have hst2 : st = { resources := applyCopies (deduplicationPlan hashFn (yearDirs inp.dirs))
                         mapping := some (mappingContent (deduplicationPlan hashFn (yearDirs inp.dirs))) } :=
        (Option.some.inj hst).symm
      rw [hst2]
      exact lookupStore_applyCopies _
        (plan_names_nodup hashFn (yearDirs inp.dirs) hnames hfiles (wf_yds_isYear)) he2

/-- **C2** (naming policy): on every accepted well-formed input, each plan
entry's years list is non-empty, its first element is the smallest version
string of the class under the code-point order on version strings, and the
resource name is `"_common." ++ filename` exactly when the class's years are
all discovered years (the code's length test coincides with set equality),
and `"_" ++ years[0] ++ "." ++ filename` otherwise (which also covers the
single-year case with the sole version as anchor). -/
theorem C2_naming_policy (hashFn : List Nat → String) (inp : InputFS)
    (hwf : WfInput inp) (hexit : (mainRun hashFn inp).exit = 0) :
    ∀ p ∈ (mainRun hashFn inp).plan,
      p.years ≠ []
      ∧ (∀ y ∈ p.years, strLe (p.years.headD "") y = true)
      ∧ p.resource_name =
          (if p.years = (yearDirs inp.dirs).map (·.name) then "_common." ++ p.filename
           else "_" ++ p.years.headD "" ++ "." ++ p.filename) := by
  obtain ⟨hs, hy, hm, hv⟩ := mainRun_accepted_of_exit_zero hexit
  rw [mainRun_success_eq hs hy hm hv]
  have hnames := wf_yds_names_nodup hwf
  have hfiles := wf_yds_files_nodup hwf
  intro p hp
  have hp2 : p ∈ deduplicationPlan hashFn (yearDirs inp.dirs) := hp
  obtain ⟨f, hf, g, hg, rfl⟩ := mem_deduplicationPlan.mp hp2
  have hyne : g.2.map (·.year) ≠ [] := group_years_ne_nil hg
  have hstrict : (g.2.map (·.year)).Pairwise (fun a b => strLt a b = true) :=
    group_years_strict hfiles (yds_names_pairwise hwf.1) hg
  have hsub : (g.2.map (·.year)).Sublist ((yearDirs inp.dirs).map (·.name)) :=
    group_years_of_db hfiles hg
  refine ⟨hyne, fun y hy2 => pairwise_strLt_head_le hstrict hy2, ?_⟩
  show resourceName (yearDirs inp.dirs).length f (g.2.map (·.year))
      = (if g.2.map (·.year) = (yearDirs inp.dirs).map (·.name) then "_common." ++ f
         else "_" ++ (g.2.map (·.year)).headD "" ++ "." ++ f)
  rw [resourceName_eq]
  by_cases heq : g.2.map (·.year) = (yearDirs inp.dirs).map (·.name)
  · rw [if_pos heq, if_pos]
    rw [heq, List.length_map]
  · rw [if_neg heq, if_neg]
    intro hlen
    exact heq (hsub.eq_of_length (by rw [hlen, List.length_map]))

/-- **C4** (naming uniqueness): on every accepted well-formed input (4-digit
version names, at most one file per filename per version directory), no two
entries of `deduplication_plan` receive the same `resource_name`. -/
theorem C4_naming_uniqueness (hashFn : List Nat → String) (inp : InputFS)
    (hwf : WfInput inp) (hexit : (mainRun hashFn inp).exit = 0) :
    (((mainRun hashFn inp).plan).map (·.resource_name)).Nodup := by
  obtain ⟨hs, hy, hm, hv⟩ := mainRun_accepted_of_exit_zero hexit
  rw [mainRun_success_eq hs hy hm hv]
  exact plan_names_nodup hashFn (yearDirs inp.dirs) (wf_yds_names_nodup hwf)
    (wf_yds_files_nodup hwf) wf_yds_isYear

theorem isEmpty_false_of_mem {l : List α} {x : α} (h : x ∈ l) : l.isEmpty = false := by
  cases l with
  | nil => cases h
  | cons a t => rfl

/-- **C9** (abort before hashing): whenever a required year directory is
absent from the discovered input set, `main` returns a non-zero status during
validation, `calculate_md5` is never invoked (the hash trace is empty), and
no file is ever copied (the plan driving the copy loop stays empty). -/
theorem C9_abort_before_hashing (hashFn : List Nat → String) (inp : InputFS)
    (hmiss : ∃ y ∈ EXPECTED_YEARS, ∀ d ∈ yearDirs inp.dirs, d.name ≠ y) :
    (mainRun hashFn inp).exit = 1
    ∧ (mainRun hashFn inp).hashed = []
    ∧ (mainRun hashFn inp).plan = [] := by
  by_cases hs : inp.sourceExists = true
  · obtain ⟨y, hy, hnot⟩ := hmiss
    have hmem : y ∈ missingYearDirs (yearDirs inp.dirs) := by
      unfold missingYearDirs
      rw [List.mem_filter]
      refine ⟨hy, ?_⟩
      simp only [Bool.not_eq_true', List.any_eq_false]
      intro d hd
      simpa using hnot d hd
    rw [mainRun_fail_validation hs (Or.inr (Or.inl (isEmpty_false_of_mem hmem)))]
    exact ⟨rfl, rfl, rfl⟩
  · rw [mainRun_fail_source (bool_eq_false hs)]
    exact ⟨rfl, rfl, rfl⟩

/-- Witness for C9 at a concrete input: the two-version input lacks 2017. -/
theorem C9_abort_before_hashing_witness :
    (mainRun demoHash inp2v).exit = 1
    ∧ (mainRun demoHash inp2v).hashed = []
    ∧ (mainRun demoHash inp2v).plan = [] :=
  C9_abort_before_hashing demoHash inp2v ⟨"2017", by decide, by decide⟩

/-- **C10** (output destroyed before validation): the output directory is
cleaned before the year-directory checks, so every run that passes the
source-path check but fails validation (no year directories, missing
expected years, a year with no DLLs, or a year missing `revit-ballet.dll`)
exits 1 with the output directory existing but empty — any output of a
prior successful run has been removed. -/
theorem C10_output_destroyed (hashFn : List Nat → String) (inp : InputFS)
    (hs : inp.sourceExists = true)
    (hfail : (yearDirs inp.dirs).isEmpty = true
      ∨ (missingYearDirs (yearDirs inp.dirs)).isEmpty = false
      ∨ validateDlls (yearDirs inp.dirs) = false) :
    (mainRun hashFn inp).exit = 1
    ∧ (mainRun hashFn inp).outDir = some { resources := [], mapping := none } := by
  rw [mainRun_fail_validation hs hfail]
  exact ⟨rfl, rfl⟩

/-- Witness for C10 at a concrete input: a failing run whose pre-existing
output (one resource plus an old mapping) is replaced by an empty directory. -/
theorem C10_output_destroyed_witness :
    (mainRun demoHash inpC10).exit = 1
    ∧ (mainRun demoHash inpC10).outDir = some { resources := [], mapping := none } :=
  C10_output_destroyed demoHash inpC10 (by decide) (Or.inl (by decide))

/-- **C5** (missing defensive uniqueness check — the code lacks what the
claim asserts): on a database in which two classes share the resource name
`_2017.a.dll`, `main` does not fail: it exits 0, emits a mapping with two
rows for the same resource name, and the second class's bytes silently
overwrite the first's in the output store. -/
theorem C5_no_defensive_check :
    (mainRun demoHash inpC5).exit = 0
    ∧ ((mainRun demoHash inpC5).plan.map (·.resource_name)).count "_2017.a.dll" = 2
    ∧ (mainRun demoHash inpC5).outDir.map (fun st => st.resources)
        = some [("_2017.a.dll", [2]), ("_common.revit-ballet.dll", [9])]
    ∧ (mainRun demoHash inpC5).outDir.map (fun st => st.mapping.isSome) = some true := by
  decide

/-- **C6** (missing size/digest invariant check — the code lacks what the
claim asserts): with a digest collision across different sizes, `main` exits
0 and groups the occurrences into one ordinary equivalence class that takes
the first member's size (1 byte), although the scan saw sizes 1 and 2. -/
theorem C6_collision_not_detected :
    (mainRun collHash inpC6).exit = 0
    ∧ (mainRun collHash inpC6).plan.map (fun p => (p.filename, p.size, p.years.length))
        = [("revit-ballet.dll", 1, 10)]
    ∧ (mainRun collHash inpC6).hashed.map List.length
        = [1, 2, 2, 2, 2, 2, 2, 2, 2, 2] := by
  decide

/-- Counterexample to **C8** as stated: on the two-version input of
Scenario 1, `main` itself produces nothing — it rejects the input (versions
2017-2019 and 2022-2026 are missing), exits 1, and leaves an empty output
with no plan and no manifest row. -/
theorem C8_counterexample :
    (mainRun demoHash inp2v).exit = 1
    ∧ (mainRun demoHash inp2v).plan = []
    ∧ (mainRun demoHash inp2v).outDir = some { resources := [], mapping := none } := by
  decide

/-- Witness for C1 at a concrete input: the ten-year input, year 2017,
file `revit-ballet.dll`. -/
theorem C1_round_trip_witness :
    ((mainRun demoHash witnessInput).plan.filter
        (fun e => e.filename == "revit-ballet.dll" && e.years.contains "2017")).length = 1
    ∧ ∀ e ∈ (mainRun demoHash witnessInput).plan,
        e.filename = "revit-ballet.dll" → "2017" ∈ e.years →
          demoHash e.source_content = demoHash [9]
          ∧ e.source_content = [9]
          ∧ ∀ st, (mainRun demoHash witnessInput).outDir = some st →
              lookupStore st.resources e.resource_name = some e.source_content :=
  C1_round_trip demoHash witnessInput (by decide) (by decide) (by decide)
    { name := "2017", files := [{ name := "revit-ballet.dll", content := [9] }] } (by decide)
    { name := "revit-ballet.dll", content := [9] } (by decide)

/-- Witness for C2 at a concrete input, instantiated at the one plan item
the run produces. -/
theorem C2_naming_policy_witness :
    witnessItem.years ≠ []
    ∧ (∀ y ∈ witnessItem.years, strLe (witnessItem.years.headD "") y = true)
    ∧ witnessItem.resource_name =
        (if witnessItem.years = (yearDirs witnessInput.dirs).map (·.name)
         then "_common." ++ witnessItem.filename
         else "_" ++ witnessItem.years.headD "" ++ "." ++ witnessItem.filename) :=
  C2_naming_policy demoHash witnessInput (by decide) (by decide) witnessItem (by decide)

/-- Witness for C4 at a concrete input. -/
theorem C4_naming_uniqueness_witness :
    (((mainRun demoHash witnessInput).plan).map (·.resource_name)).Nodup :=
  C4_naming_uniqueness demoHash witnessInput (by decide) (by decide)

/-! ## Minimality -/

theorem plan_pairs_nodup (hashFn : List Nat → String) (yds : List YearDir) :
    ((deduplicationPlan hashFn yds).map (fun p => (p.filename, p.hash))).Nodup := by
  apply List.Pairwise.map (fun p : PlanItem => (p.filename, p.hash))
    (fun p q (h : (p.filename, p.hash) ≠ (q.filename, q.hash)) => h)
  unfold deduplicationPlan
  rw [List.pairwise_flatMap]
  constructor
  · intro f hf
    have hpw : (groupByHash (fileDatabase hashFn yds f)).Pairwise
        (fun g1 g2 => g1.1 ≠ g2.1) :=
      List.pairwise_map.mp (groupByHash_keys_nodup _)
    exact List.Pairwise.map (mkPlanItem yds.length f)
      (fun g1 g2 hkey heq => hkey (congrArg Prod.snd heq)) hpw
  · have hnd : (dbKeys yds).Pairwise (fun f1 f2 => f1 ≠ f2) := dbKeys_nodup yds
    refine hnd.imp ?_
    intro f1 f2 hne
    intro p hpmem q hqmem heq
    rw [List.mem_map] at hpmem hqmem
    obtain ⟨g1, hg1, rfl⟩ := hpmem
    obtain ⟨g2, hg2, rfl⟩ := hqmem
    exact hne (congrArg Prod.fst heq)

theorem mem_scanPairs {hashFn : List Nat → String} {yds : List YearDir}
    {pr : String × String} :
    pr ∈ scanPairs hashFn yds
      ↔ ∃ d ∈ yds, ∃ fl ∈ dllFiles d, pr = (fl.name, hashFn fl.content) := by
  unfold scanPairs
  rw [List.mem_flatMap]
  constructor
  · rintro ⟨d, hd, hp⟩
    rw [List.mem_map] at hp
    obtain ⟨fl, hfl, rfl⟩ := hp
    exact ⟨d, hd, fl, hfl, rfl⟩
  · rintro ⟨d, hd, fl, hfl, rfl⟩
    exact ⟨d, hd, List.mem_map_of_mem _ hfl⟩

theorem plan_pairs_members {hashFn : List Nat → String} {yds : List YearDir}
    {pr : String × String} :
    pr ∈ (deduplicationPlan hashFn yds).map (fun p => (p.filename, p.hash))
      ↔ pr ∈ scanPairs hashFn yds := by
  rw [List.mem_map, mem_scanPairs]
  constructor
  · rintro ⟨p, hp, rfl⟩
    obtain ⟨f, hf, g, hg, rfl⟩ := mem_deduplicationPlan.mp hp
    obtain ⟨hk, _⟩ := mem_groupByHash.mp hg
    rw [mem_firstDedup, List.mem_map] at hk
    obtain ⟨e, he, hh⟩ := hk
    obtain ⟨d, hd, fl, hfl, hname, rfl⟩ := mem_fileDatabase.mp he
    refine ⟨d, hd, fl, hfl, ?_⟩
    show (f, g.1) = (fl.name, hashFn fl.content)
    rw [← hname, ← hh]
    rfl
  · rintro ⟨d, hd, fl, hfl, rfl⟩
    have hkey : fl.name ∈ dbKeys yds :=
      mem_dbKeys.mpr (mem_scanNames.mpr ⟨d, hd, fl, hfl, rfl⟩)
    have he0 : mkEntry hashFn d.name fl ∈ fileDatabase hashFn yds fl.name :=
      mem_fileDatabase.mpr ⟨d, hd, fl, hfl, rfl, rfl⟩
    have hh : hashFn fl.content
        ∈ firstDedup ((fileDatabase hashFn yds fl.name).map (·.hash)) := by
      rw [mem_firstDedup, List.mem_map]
      exact ⟨mkEntry hashFn d.name fl, he0, rfl⟩
    refine ⟨mkPlanItem yds.length fl.name
      (hashFn fl.content,
        (fileDatabase hashFn yds fl.name).filter (fun e => e.hash == hashFn fl.content)),
      ?_, rfl⟩
    exact mem_deduplicationPlan.mpr ⟨fl.name, hkey, _, mem_groupByHash.mpr ⟨hh, rfl⟩, rfl⟩

theorem plan_length_eq_distinct (hashFn : List Nat → String) (yds : List YearDir) :
    (deduplicationPlan hashFn yds).length = distinctPairCount hashFn yds := by
  have h1 : ((deduplicationPlan hashFn yds).map (fun p => (p.filename, p.hash))).Perm
      (firstDedup (scanPairs hashFn yds)) := by
    apply List.Subperm.antisymm
    · apply List.subperm_of_subset (plan_pairs_nodup hashFn yds)
      intro pr hpr
      rw [mem_firstDedup]
      exact plan_pairs_members.mp hpr
    · apply List.subperm_of_subset (nodup_firstDedup _)
      intro pr hpr
      rw [mem_firstDedup] at hpr
      exact plan_pairs_members.mpr hpr
  have h2 := h1.length_eq
  rw [List.length_map] at h2
  exact h2

/-- Counterexample to **C3** as stated: `main` writes `file-mapping.txt`
into the output store directory, so after the concrete ten-year run the
directory holds 2 physical files while there is exactly 1 distinct
(filename, digest) pair. -/
theorem C3_counterexample :
    (mainRun demoHash witnessInput).outDir.map outFileCount = some 2
    ∧ distinctPairCount demoHash (yearDirs witnessInput.dirs) = 1 := by
  decide

/-- **C3 amended** (minimality): on every accepted well-formed input, the
number of plan entries — and with it the number of copy operations and the
number of resource files in the output store — equals the number of
distinct (filename, digest) pairs across all version directories; the
directory holds exactly one more physical file, the `file-mapping.txt`
manifest. -/
theorem C3_minimality (hashFn : List Nat → String) (inp : InputFS)
    (hwf : WfInput inp) (hexit : (mainRun hashFn inp).exit = 0) :
    (mainRun hashFn inp).plan.length = distinctPairCount hashFn (yearDirs inp.dirs)
    ∧ ∀ st, (mainRun hashFn inp).outDir = some st →
        st.resources.length = distinctPairCount hashFn (yearDirs inp.dirs)
        ∧ outFileCount st = distinctPairCount hashFn (yearDirs inp.dirs) + 1 := by
  obtain ⟨hs, hy, hm, hv⟩ := mainRun_accepted_of_exit_zero hexit
  rw [mainRun_success_eq hs hy hm hv]
  have hlen : (applyCopies (deduplicationPlan hashFn (yearDirs inp.dirs))).length
      = (deduplicationPlan hashFn (yearDirs inp.dirs)).length :=
    length_applyCopies _ (plan_names_nodup hashFn (yearDirs inp.dirs)
      (wf_yds_names_nodup hwf) (wf_yds_files_nodup hwf) wf_yds_isYear)
  refine ⟨plan_length_eq_distinct hashFn _, ?_⟩
  intro st hst
  have hst2 : st = { resources := applyCopies (deduplicationPlan hashFn (yearDirs inp.dirs))
                     mapping := some (mappingContent (deduplicationPlan hashFn (yearDirs inp.dirs))) } :=
    (Option.some.inj hst).symm
  rw [hst2]
  constructor
  · show (applyCopies (deduplicationPlan hashFn (yearDirs inp.dirs))).length
      = distinctPairCount hashFn (yearDirs inp.dirs)
    rw [hlen, plan_length_eq_distinct]
  · show (applyCopies (deduplicationPlan hashFn (yearDirs inp.dirs))).length + 1
      = distinctPairCount hashFn (yearDirs inp.dirs) + 1
    rw [hlen, plan_length_eq_distinct]

/-- Witness for the amended C3 at a concrete input. -/
theorem C3_minimality_witness :
    (mainRun demoHash witnessInput).plan.length
        = distinctPairCount demoHash (yearDirs witnessInput.dirs)
    ∧ ∀ st, (mainRun demoHash witnessInput).outDir = some st →
        st.resources.length = distinctPairCount demoHash (yearDirs witnessInput.dirs)
        ∧ outFileCount st = distinctPairCount demoHash (yearDirs witnessInput.dirs) + 1 :=
  C3_minimality demoHash witnessInput (by decide) (by decide)

theorem firstDedup_pair (a : String) : firstDedup [a, a] = [a] := by
  unfold firstDedup
  simp [dedupAppend]

/-- **C8 amended** (Scenario 1 on the deduplication core): `main` itself
rejects the two-version input, but the deduplication engine (scan, group,
name, emit) applied to the discovered 2020/2021 directories — for any
digest function — produces exactly one equivalence class named
`_common.a.dll` and the manifest row `_common.a.dll|a.dll|2020,2021`. -/
theorem C8_scenario1_core (hashFn : List Nat → String) :
    deduplicationPlan hashFn (yearDirs dirs2v)
      = [{ filename := "a.dll", resource_name := "_common.a.dll", hash := hashFn [1, 2],
           years := ["2020", "2021"], source_content := [1, 2], size := 2 }]
    ∧ mappingContent (deduplicationPlan hashFn (yearDirs dirs2v))
      = "# Revit Ballet Installer - File Mapping\n"
        ++ "# Format: ResourceName|TargetFileName|Years (comma-separated)\n"
        ++ "# This file is used by the installer to know which files to extract for each year\n"
        ++ "\n" ++ "_common.a.dll|a.dll|2020,2021\n" := by
  have hyd : yearDirs dirs2v = dirs2v := by decide
  have hkeys : dbKeys (yearDirs dirs2v) = ["a.dll"] := by decide
  have hdb : fileDatabase hashFn (yearDirs dirs2v) "a.dll"
      = [mkEntry hashFn "2020" { name := "a.dll", content := [1, 2] },
         mkEntry hashFn "2021" { name := "a.dll", content := [1, 2] }] := by
    rw [hyd]
    rfl
  have hmap : List.map (fun e : Entry => e.hash)
        [mkEntry hashFn "2020" { name := "a.dll", content := [1, 2] },
         mkEntry hashFn "2021" { name := "a.dll", content := [1, 2] }]
      = [hashFn [1, 2], hashFn [1, 2]] := rfl
  have hgroup : groupByHash (fileDatabase hashFn (yearDirs dirs2v) "a.dll")
      = [(hashFn [1, 2],
          [mkEntry hashFn "2020" { name := "a.dll", content := [1, 2] },
           mkEntry hashFn "2021" { name := "a.dll", content := [1, 2] }])] := by
    rw [hdb]
    unfold groupByHash
    rw [hmap, firstDedup_pair]
    simp [mkEntry]
  have hplan : deduplicationPlan hashFn (yearDirs dirs2v)
      = [{ filename := "a.dll", resource_name := "_common.a.dll", hash := hashFn [1, 2],
           years := ["2020", "2021"], source_content := [1, 2], size := 2 }] := by
    unfold deduplicationPlan
    rw [hkeys]
    simp only [List.flatMap_cons, List.flatMap_nil, List.append_nil]
    rw [hgroup, hyd]
    rfl
  refine ⟨hplan, ?_⟩
  rw [hplan]
  rfl

/-! ## Determinism: invariance under directory-enumeration order -/

theorem strict_sorted_perm_eq {l1 l2 : List String}
    (hp : l1.Perm l2)
    (h1 : l1.Pairwise (fun a b => strLt a b = true))
    (h2 : l2.Pairwise (fun a b => strLt a b = true)) : l1 = l2 := by
  haveI : IsAntisymm String (fun a b => strLt a b = true) :=
    ⟨fun a b hab hba => absurd hba (by simp [strLt_asymm hab])⟩
  exact List.eq_of_perm_of_sorted hp h1 h2

theorem filter_years_names (dirs : List YearDir) :
    (dirs.filter (fun d => isYearName d.name)).map (·.name)
      = (dirs.map (·.name)).filter isYearName :=
  (@List.filter_map YearDir String isYearName (fun d : YearDir => d.name) dirs).symm

theorem yearDirs_names_perm {dirs1 dirs2 : List YearDir}
    (hperm : (dirs1.map (·.name)).Perm (dirs2.map (·.name))) :
    ((yearDirs dirs1).map (·.name)).Perm ((yearDirs dirs2).map (·.name)) := by
  have h1 : ((yearDirs dirs1).map (·.name)).Perm
      ((dirs1.filter (fun d => isYearName d.name)).map (·.name)) :=
    (sortKey_perm (fun d : YearDir => d.name) _).map (fun d : YearDir => d.name)
  have h2 : ((yearDirs dirs2).map (·.name)).Perm
      ((dirs2.filter (fun d => isYearName d.name)).map (·.name)) :=
    (sortKey_perm (fun d : YearDir => d.name) _).map (fun d : YearDir => d.name)
  rw [filter_years_names] at h1 h2
  exact h1.trans ((hperm.filter isYearName).trans h2.symm)

theorem yearDirs_names_eq {dirs1 dirs2 : List YearDir}
    (hnd1 : (dirs1.map (·.name)).Nodup) (hnd2 : (dirs2.map (·.name)).Nodup)
    (hperm : (dirs1.map (·.name)).Perm (dirs2.map (·.name))) :
    (yearDirs dirs1).map (·.name) = (yearDirs dirs2).map (·.name) :=
  strict_sorted_perm_eq (yearDirs_names_perm hperm)
    (yds_names_pairwise hnd1) (yds_names_pairwise hnd2)

theorem yearDirs_forall2 {dirs1 dirs2 : List YearDir}
    (hnd1 : (dirs1.map (·.name)).Nodup) (hnd2 : (dirs2.map (·.name)).Nodup)
    (hequiv : DirsEquiv dirs1 dirs2) :
    List.Forall₂ (fun d1 d2 => d1.name = d2.name ∧ d1.files.Perm d2.files)
      (yearDirs dirs1) (yearDirs dirs2) := by
  have hnames : (yearDirs dirs1).map (·.name) = (yearDirs dirs2).map (·.name) :=
    yearDirs_names_eq hnd1 hnd2 hequiv.1
  rw [List.forall₂_iff_get]
  have hlen : (yearDirs dirs1).length = (yearDirs dirs2).length := by
    have hc := congrArg List.length hnames
    simpa using hc
  refine ⟨hlen, ?_⟩
  intro i h1 h2
  have hget := congrArg (fun l => l.get? i) hnames
  simp only [List.get?_map] at hget
  rw [List.get?_eq_get h1, List.get?_eq_get h2] at hget
  simp only [Option.map_some'] at hget
  have hname_i : ((yearDirs dirs1).get ⟨i, h1⟩).name
      = ((yearDirs dirs2).get ⟨i, h2⟩).name := Option.some.inj hget
  refine ⟨hname_i, ?_⟩
  exact hequiv.2 _ (mem_yearDirs.mp (List.get_mem _ i h1)).1
    _ (mem_yearDirs.mp (List.get_mem _ i h2)).1 hname_i

theorem any_eq_of_perm {l1 l2 : List α} (hp : l1.Perm l2) (p : α → Bool) :
    l1.any p = l2.any p := by
  rw [Bool.eq_iff_iff, List.any_eq_true, List.any_eq_true]
  constructor
  · rintro ⟨x, hx, hpx⟩
    exact ⟨x, hp.mem_iff.mp hx, hpx⟩
  · rintro ⟨x, hx, hpx⟩
    exact ⟨x, hp.mem_iff.mpr hx, hpx⟩

theorem any_map_name {l : List YearDir} {p : String → Bool} :
    (l.map (·.name)).any p = l.any (fun d => p d.name) := by
  induction l with
  | nil => rfl
  | cons a as ih => rw [List.map_cons, List.any_cons, List.any_cons, ih]

theorem isEmpty_eq_of_length {l1 : List α} {l2 : List β} (h : l1.length = l2.length) :
    l1.isEmpty = l2.isEmpty := by
  cases l1 with
  | nil =>
    cases l2 with
    | nil => rfl
    | cons b t => simp at h
  | cons a t =>
    cases l2 with
    | nil => simp at h
    | cons b t2 => rfl

theorem perm_eq_of_length_le_one {l1 l2 : List α} (hp : l1.Perm l2) (hle : l1.length ≤ 1) :
    l1 = l2 := by
  cases l1 with
  | nil =>
    have : l2 = [] := hp.symm.eq_nil ▸ rfl
    rw [List.Perm.eq_nil hp.symm]
  | cons x xs =>
    cases xs with
    | nil => exact (List.perm_singleton.mp hp.symm).symm
    | cons y ys => simp at hle

theorem validateDlls_eq {yds1 yds2 : List YearDir}
    (hf : List.Forall₂ (fun d1 d2 => d1.name = d2.name ∧ d1.files.Perm d2.files) yds1 yds2) :
    validateDlls yds1 = validateDlls yds2 := by
  unfold validateDlls
  induction hf with
  | nil => rfl
  | @cons a b as bs h12 htail ih =>
    rw [List.all_cons, List.all_cons, ih]
    have hdll : (dllFiles a).Perm (dllFiles b) :=
      h12.2.filter (fun fl : SrcFile => ['.', 'd', 'l', 'l'].isSuffixOf fl.name.data)
    congr 1
    congr 1
    · exact congrArg (fun b => !b) (isEmpty_eq_of_length hdll.length_eq)
    · exact any_eq_of_perm hdll _

theorem fileDatabase_eq {hashFn : List Nat → String} {yds1 yds2 : List YearDir}
    (hf : List.Forall₂ (fun d1 d2 => d1.name = d2.name ∧ d1.files.Perm d2.files) yds1 yds2)
    (hfiles1 : ∀ d ∈ yds1, (d.files.map (·.name)).Nodup) (f : String) :
    fileDatabase hashFn yds1 f = fileDatabase hashFn yds2 f := by
  induction hf with
  | nil => rfl
  | @cons a b as bs h12 htail ih =>
    rw [fileDatabase_cons, fileDatabase_cons,
      ih (fun d hd => hfiles1 d (List.mem_cons_of_mem a hd))]
    have hdll : (dllFiles a).Perm (dllFiles b) :=
      h12.2.filter (fun fl : SrcFile => ['.', 'd', 'l', 'l'].isSuffixOf fl.name.data)
    have hp : ((dllFiles a).filter (fun fl => fl.name == f)).Perm
        ((dllFiles b).filter (fun fl => fl.name == f)) :=
      hdll.filter (fun fl => fl.name == f)
    have hle : ((dllFiles a).filter (fun fl => fl.name == f)).length ≤ 1 :=
      dllFiles_filter_le_one (hfiles1 a (List.mem_cons_self a as)) f
    rw [perm_eq_of_length_le_one hp hle, h12.1]

theorem scanNames_perm_of_equiv {yds1 yds2 : List YearDir}
    (hf : List.Forall₂ (fun d1 d2 => d1.name = d2.name ∧ d1.files.Perm d2.files) yds1 yds2) :
    (scanNames yds1).Perm (scanNames yds2) := by
  unfold scanNames
  induction hf with
  | nil => exact List.Perm.refl []
  | cons h12 htail ih =>
    rw [List.flatMap_cons, List.flatMap_cons]
    exact ((h12.2.filter _).map _).append ih

theorem dbKeys_eq_of_equiv {yds1 yds2 : List YearDir}
    (hf : List.Forall₂ (fun d1 d2 => d1.name = d2.name ∧ d1.files.Perm d2.files) yds1 yds2) :
    dbKeys yds1 = dbKeys yds2 := by
  unfold dbKeys
  apply sortKey_eq_of_perm id (firstDedup_perm_of_perm (scanNames_perm_of_equiv hf))
  rw [List.map_id]
  exact nodup_firstDedup _

theorem missingYearDirs_eq {yds1 yds2 : List YearDir}
    (hnames : yds1.map (·.name) = yds2.map (·.name)) :
    missingYearDirs yds1 = missingYearDirs yds2 := by
  unfold missingYearDirs
  apply List.filter_congr
  intro y hy
  congr 1
  have h1 : yds1.any (fun d => d.name == y) = (yds1.map (·.name)).any (fun n => n == y) :=
    (@any_map_name yds1 (fun n => n == y)).symm
  have h2 : yds2.any (fun d => d.name == y) = (yds2.map (·.name)).any (fun n => n == y) :=
    (@any_map_name yds2 (fun n => n == y)).symm
  rw [h1, h2, hnames]

theorem flatMap_congr {l : List α} {F G : α → List β} (h : ∀ a ∈ l, F a = G a) :
    l.flatMap F = l.flatMap G := by
  induction l with
  | nil => rfl
  | cons a as ih =>
    rw [List.flatMap_cons, List.flatMap_cons, h a (List.mem_cons_self a as),
      ih (fun b hb => h b (List.mem_cons_of_mem a hb))]

/-- **C7** (determinism): two runs over byte-identical version directories —
even when `iterdir` and `glob` enumerate entries in different orders —
return the same exit code, the same output directory (resource files and
the byte-identical `file-mapping.txt`), and the same deduplication plan. -/
theorem C7_determinism (hashFn : List Nat → String) (inp1 inp2 : InputFS)
    (hwf1 : WfInput inp1) (hwf2 : WfInput inp2)
    (hsrc : inp1.sourceExists = inp2.sourceExists)
    (hprev : inp1.prevOutput = inp2.prevOutput)
    (hequiv : DirsEquiv inp1.dirs inp2.dirs) :
    (mainRun hashFn inp1).exit = (mainRun hashFn inp2).exit
    ∧ (mainRun hashFn inp1).outDir = (mainRun hashFn inp2).outDir
    ∧ (mainRun hashFn inp1).plan = (mainRun hashFn inp2).plan := by
  have hf := yearDirs_forall2 hwf1.1 hwf2.1 hequiv
  have hnames : (yearDirs inp1.dirs).map (·.name) = (yearDirs inp2.dirs).map (·.name) :=
    yearDirs_names_eq hwf1.1 hwf2.1 hequiv.1
  have hlen : (yearDirs inp1.dirs).length = (yearDirs inp2.dirs).length := hf.length_eq
  have hempty : (yearDirs inp1.dirs).isEmpty = (yearDirs inp2.dirs).isEmpty :=
    isEmpty_eq_of_length hlen
  have hmiss : missingYearDirs (yearDirs inp1.dirs) = missingYearDirs (yearDirs inp2.dirs) :=
    missingYearDirs_eq hnames
  have hval : validateDlls (yearDirs inp1.dirs) = validateDlls (yearDirs inp2.dirs) :=
    validateDlls_eq hf
  have hplan : deduplicationPlan hashFn (yearDirs inp1.dirs)
      = deduplicationPlan hashFn (yearDirs inp2.dirs) := by
    unfold deduplicationPlan
    rw [dbKeys_eq_of_equiv hf, hlen]
    apply flatMap_congr
    intro f hfmem
    rw [fileDatabase_eq hf (wf_yds_files_nodup hwf1) f]
  by_cases hs : inp1.sourceExists = true
  · have hs2 : inp2.sourceExists = true := hsrc ▸ hs
    by_cases hy : (yearDirs inp1.dirs).isEmpty = true
    · have hy2 : (yearDirs inp2.dirs).isEmpty = true := hempty ▸ hy
      rw [mainRun_fail_validation hs (Or.inl hy),
        mainRun_fail_validation hs2 (Or.inl hy2)]
      exact ⟨rfl, rfl, rfl⟩
    · by_cases hm : (missingYearDirs (yearDirs inp1.dirs)).isEmpty = false
      · have hm2 : (missingYearDirs (yearDirs inp2.dirs)).isEmpty = false := hmiss ▸ hm
        rw [mainRun_fail_validation hs (Or.inr (Or.inl hm)),
          mainRun_fail_validation hs2 (Or.inr (Or.inl hm2))]
        exact ⟨rfl, rfl, rfl⟩
      · by_cases hv : validateDlls (yearDirs inp1.dirs) = false
        · have hv2 : validateDlls (yearDirs inp2.dirs) = false := hval ▸ hv
          rw [mainRun_fail_validation hs (Or.inr (Or.inr hv)),
            mainRun_fail_validation hs2 (Or.inr (Or.inr hv2))]
          exact ⟨rfl, rfl, rfl⟩
        · have hy2 : (yearDirs inp2.dirs).isEmpty = false := hempty ▸ bool_eq_false hy
          have hm2 : (missingYearDirs (yearDirs inp2.dirs)).isEmpty = true :=
            hmiss ▸ bool_eq_true hm
          have hv2 : validateDlls (yearDirs inp2.dirs) = true := hval ▸ bool_eq_true hv
          rw [mainRun_success_eq hs (bool_eq_false hy) (bool_eq_true hm) (bool_eq_true hv),
            mainRun_success_eq hs2 hy2 hm2 hv2, hplan]
          exact ⟨rfl, rfl, rfl⟩
  · have hs2 : inp2.sourceExists = false := hsrc ▸ bool_eq_false hs
    rw [mainRun_fail_source (bool_eq_false hs), mainRun_fail_source hs2, hprev]
    exact ⟨rfl, rfl, rfl⟩

/-- Witness for C7 at a concrete pair of inputs: the same ten-year tree,
enumerated in reversed directory order and reversed file order. -/
theorem C7_determinism_witness :
    (mainRun demoHash inp7a).exit = (mainRun demoHash inp7b).exit
    ∧ (mainRun demoHash inp7a).outDir = (mainRun demoHash inp7b).outDir
    ∧ (mainRun demoHash inp7a).plan = (mainRun demoHash inp7b).plan :=
  C7_determinism demoHash inp7a inp7b (by decide) (by decide) (by decide) (by decide)
    ⟨by decide, by decide⟩
